import Mathlib

/-!
Verification development for the statistical core of the JACNEx CNV caller.

The Python sources are shallowly embedded: machine floats become exact
rationals (ℚ), numpy arrays become lists or functions on `Fin 4`, and
fallible code returns `Except String _`.  Calls into external numeric
libraries (scipy probability densities and cumulative distribution
functions, numpy square roots and the float constant sqrt(2*pi)) are not
code of this repository; they enter the embedding as explicit oracle
parameters (`gammaPdf`, `gammaCdf`, `normPdf`, `sqrtFn`, `sqrt2pi`).
The distance-dependent transition adjustment lives in a module
(`callCNVs.transitions`) that is not part of the given sources, so the
decoder is parametrised by the already-adjusted matrix `adjT d`.
-/

set_option maxRecDepth 4000

namespace JACNEx

/-! ## Emission evaluator (CNCalls/copyNumbersCalls.py, computeProbabilites) -/

/-- CN0 density branch of `computeProbabilites`: the fitted-gamma pdf truncated
at `mean/2` and renormalized by `1/(1 - gammaCdf gamma_threshold)`;
0 when the sample FPM exceeds the CN1 mean. -/
def cn0density (gammaPdf gammaCdf : ℚ → ℚ) (sample_data gamma_threshold mean : ℚ) : ℚ :=
  if sample_data ≤ mean / 2 then
    (1 / (1 - gammaCdf gamma_threshold)) * gammaPdf sample_data
  else 0

/-- The four probability densities computed by `computeProbabilites`
(gamma for CN0, Gaussians centred at mean/2, mean, 3*mean/2 for CN1..CN3+). -/
def pdens (gammaPdf gammaCdf : ℚ → ℚ) (normPdf : ℚ → ℚ → ℚ → ℚ)
    (sample_data gamma_threshold mean sd : ℚ) : Fin 4 → ℚ :=
  fun i =>
    if i = 0 then cn0density gammaPdf gammaCdf sample_data gamma_threshold mean
    else if i = 1 then normPdf sample_data (mean / 2) sd
    else if i = 2 then normPdf sample_data mean sd
    else normPdf sample_data (3 * mean / 2) sd

/-- `probability_densities_priors`: densities multiplied elementwise by the priors. -/
def priorWeighted (gammaPdf gammaCdf : ℚ → ℚ) (normPdf : ℚ → ℚ → ℚ → ℚ)
    (sample_data gamma_threshold mean sd : ℚ) (priors : Fin 4 → ℚ) : Fin 4 → ℚ :=
  fun i => pdens gammaPdf gammaCdf normPdf sample_data gamma_threshold mean sd i * priors i

/-- `np.sum(probability_densities_priors)`. -/
def pwTotal (gammaPdf gammaCdf : ℚ → ℚ) (normPdf : ℚ → ℚ → ℚ → ℚ)
    (sample_data gamma_threshold mean sd : ℚ) (priors : Fin 4 → ℚ) : ℚ :=
  priorWeighted gammaPdf gammaCdf normPdf sample_data gamma_threshold mean sd priors 0 +
  priorWeighted gammaPdf gammaCdf normPdf sample_data gamma_threshold mean sd priors 1 +
  priorWeighted gammaPdf gammaCdf normPdf sample_data gamma_threshold mean sd priors 2 +
  priorWeighted gammaPdf gammaCdf normPdf sample_data gamma_threshold mean sd priors 3

/-- `computeProbabilites` from CNCalls/copyNumbersCalls.py: prior-weighted
densities divided by their sum.  The Python code performs the division
unconditionally (numpy turns 0/0 into NaN with a warning); in this exact
embedding a zero total gives the zero vector, matching the absence of any
sentinel branch in the source. -/
def computeProbabilites (gammaPdf gammaCdf : ℚ → ℚ) (normPdf : ℚ → ℚ → ℚ → ℚ)
    (sample_data gamma_threshold mean sd : ℚ) (priors : Fin 4 → ℚ) : Fin 4 → ℚ :=
  fun i => priorWeighted gammaPdf gammaCdf normPdf sample_data gamma_threshold mean sd priors i /
    pwTotal gammaPdf gammaCdf normPdf sample_data gamma_threshold mean sd priors

/-! ## Gamma threshold extraction (CNCalls/copyNumbersCalls.py, fitGammaDistribution) -/

/-- Threshold-extraction slice of `fitGammaDistribution`: the low-coverage tail
is sorted in place, the fitted-gamma CDF (an oracle here, since scipy performs
the fit and CDF evaluation) is evaluated at each point, and
`np.where(cdf < 0.95)[0][-1]` picks the last index whose CDF is below 0.95.
Indexing `[-1]` into an empty index array raises IndexError in Python, which
nothing in the source catches. -/
def fitGammaThreshold (lowTail : List ℚ) (gammaCdf : ℚ → ℚ) : Except String ℚ :=
  let sortedTail := lowTail.insertionSort (· ≤ ·)
  let cdf := sortedTail.map gammaCdf
  let idxs := (List.range sortedTail.length).filter (fun i => decide (cdf.getD i 0 < 95 / 100))
  match idxs.getLast? with
  | none => Except.error "IndexError"
  | some thresholdIndex => Except.ok (sortedTail.getD thresholdIndex 0)

/-- Modelled from the spec: the tagged per-cluster failure name
`NO_UNCOV_THRESHOLD` that section 7 of the specification expects when every
CDF value is at least 0.95. -/
def NO_UNCOV_THRESHOLD : String := "NO_UNCOV_THRESHOLD"

/-! ## Robust Gaussian fitter (callCNVs/robustGaussianFit.py) -/

/-- `numpy.median`: sort, take the middle element (odd length) or the mean of
the two middle elements (even length). -/
def npMedian (X : List ℚ) : ℚ :=
  let s := X.insertionSort (· ≤ ·)
  if X.length % 2 = 1 then s.getD (X.length / 2) 0
  else (s.getD (X.length / 2 - 1) 0 + s.getD (X.length / 2) 0) / 2

/-- Mean of a list (`numpy.average`); division by zero length gives 0 here. -/
def npMean (X : List ℚ) : ℚ := X.sum / X.length

/-- `numpy.var`: mean of squared deviations from the mean. -/
def npVar (X : List ℚ) : ℚ := ((X.map (fun x => (x - npMean X) ^ 2)).sum) / X.length

/-- Series loop of `normal_erf`: for i in range(1, depth), update
`ele`, `normal`, `erf`. -/
def erfLoop (x : ℚ) : List ℕ → ℚ × ℚ × ℚ → ℚ × ℚ × ℚ
  | [], acc => acc
  | i :: rest, (ele, normal, erf) =>
      let ele2 := -ele * x * x / 2 / (i : ℚ)
      erfLoop x rest (ele2, normal + ele2, erf + ele2 * x / (2 * (i : ℚ) + 1))

/-- `normal_erf` from robustGaussianFit.py: series expansion of the
standard-normal pdf and erf; `sqrt2pi` is the float value of
`numpy.sqrt(2.0*numpy.pi)` passed as an oracle constant.  The
`numpy.clip` calls become max/min. -/
def normal_erf (sqrt2pi : ℚ) (x mu sigma : ℚ) (depth : ℕ) : ℚ × ℚ :=
  let x2 := (x - mu) / sigma
  let r := erfLoop x2 (List.range' 1 (depth - 1)) (1, 1, x2)
  (max (r.2.1 / sqrt2pi / sigma) 0, max (-(1 / 2)) (min (r.2.2 / sqrt2pi / sigma) (1 / 2)))

/-- `truncated_integral_and_sigma` from robustGaussianFit.py; `sqrtFn` is the
numpy square root passed as an oracle. -/
def truncated_integral_and_sigma (sqrtFn : ℚ → ℚ) (sqrt2pi x : ℚ) : ℚ :=
  let ne := normal_erf sqrt2pi x 0 1 50
  sqrtFn (1 - ne.1 * x / ne.2)

/-- EM loop of `robustGaussianFit`, fuel-indexed (the Python while loop has no
termination guarantee).  Mirrors: window selection, mean of the window,
variance around the new mean, sigma correction by the truncated-normal factor. -/
def fitLoop (sqrtFn : ℚ → ℚ) (k : ℚ) (X : List ℚ) (bandwidth eps : ℚ) :
    ℕ → ℚ → ℚ → ℚ → ℚ → Except String (ℚ × ℚ)
  | 0, _, _, _, _ => Except.error "fuel exhausted"
  | fuel + 1, mu, mu_0, sigma, sigma_0 =>
    if |mu - mu_0| + |sigma - sigma_0| > eps then
      let W := X.filter (fun x =>
        decide (x - mu - bandwidth * sigma < 0) && decide (x - mu + bandwidth * sigma > 0))
      if W.isEmpty then Except.error "cannot fit"
      else
        let mu2 := npMean W
        let var := npMean (W.map (fun x => (x - mu2) ^ 2))
        let sigma2 := sqrtFn var / k
        fitLoop sqrtFn k X bandwidth eps fuel mu2 mu sigma2 sigma
    else Except.ok (mu, sigma)

/-- `robustGaussianFit` from callCNVs/robustGaussianFit.py.  When `mu` is not
supplied it is the median of `X`, and a zero median raises "cannot fit" before
anything else happens.  `fuel` bounds the (source-unbounded) EM iteration. -/
def robustGaussianFit (fuel : ℕ) (sqrtFn : ℚ → ℚ) (sqrt2pi : ℚ) (X : List ℚ)
    (muOpt sigmaOpt : Option ℚ) (bandwidth eps : ℚ) : Except String (ℚ × ℚ) := do
  let mu ← match muOpt with
    | none =>
        let m := npMedian X
        if m = 0 then Except.error "cannot fit" else Except.ok m
    | some m => Except.ok m
  let sigma := match sigmaOpt with
    | none => sqrtFn (npVar X) / 3
    | some s => s
  let k := truncated_integral_and_sigma sqrtFn sqrt2pi bandwidth
  fitLoop sqrtFn k X bandwidth eps fuel mu (mu + 1) sigma (sigma + 1)

/-! ## Data model of the Viterbi decoder (callCNVs/callCNVs.py) -/

/-- An exon record [chrom, START, END, EXONID]; `END` is `stop` here since
`end` is reserved. -/
structure Exon where
  chrom : String
  start : ℤ
  stop : ℤ
  exonID : String
  deriving DecidableEq, Repr, Inhabited

/-- A called CNV [CNType, firstExonIndex, lastExonIndex, qualityScore, sampleID].
The source stores `math.log` of the accumulated probability ratio; the exact
ratio is kept here (`qualRatio`) so that the record stays computable, and the
logged score is recovered by `CNV.qualityScore`. -/
structure CNV where
  cnState : Fin 4
  firstExon : ℤ
  lastExon : ℤ
  qualRatio : ℚ
  sampleID : String
  deriving DecidableEq, Repr

/-- The quality score actually written by the source: `math.log` of the ratio. -/
noncomputable def CNV.qualityScore (c : CNV) : ℝ := Real.log (c.qualRatio : ℝ)

/-- The part of a CNV record compared when asking "which segments were
emitted": state and exon span, without the numeric score. -/
def cnvTriple (c : CNV) : Fin 4 × ℤ × ℤ := (c.cnState, c.firstExon, c.lastExon)

/-- Probability of the path coming from `prevState` to `currentState`:
`probsPrev[p] * adjustedTransMatrix[p, c] * likelihoods[e, c]`. -/
def prob1 (pp : Fin 4 → ℚ) (T : Fin 4 → Fin 4 → ℚ) (L : Fin 4 → ℚ) (p c : Fin 4) : ℚ :=
  pp p * T p c * L c

/-- One iteration of the inner `for prevState in range(NbStates)` loop, for a
candidate map `q`: strictly improving candidates overwrite the accumulator. -/
def vStep (q : Fin 4 → ℚ) (acc : ℚ × Option (Fin 4)) (p : Fin 4) : ℚ × Option (Fin 4) :=
  if q p > acc.1 then (q p, some p) else acc

/-- The loop over the four predecessor states, starting from the source's
`probMax = -1`, `prevStateMax = -1` (the unset sentinel becomes `none`). -/
def vFold (q : Fin 4 → ℚ) : ℚ × Option (Fin 4) :=
  (List.finRange 4).foldl (vStep q) (-1, none)

/-- The inner loop of the forward pass, with candidates
`probsPrev[p] * T[p, c] * L[c]`. -/
def innerMax (pp : Fin 4 → ℚ) (T : Fin 4 → Fin 4 → ℚ) (L : Fin 4 → ℚ) (c : Fin 4) :
    ℚ × Option (Fin 4) :=
  vFold (fun p => prob1 pp T L p c)

/-- `probsCurrent[currentState] = probMax`. -/
def probsCurF (pp : Fin 4 → ℚ) (T : Fin 4 → Fin 4 → ℚ) (L : Fin 4 → ℚ) (c : Fin 4) : ℚ :=
  (innerMax pp T L c).1

/-- `bestPrevState[currentState]`: `prevStateMax` when `probMax > 0`, else the
CN2 default the accumulator array was filled with. -/
def bestPrevFin (pp : Fin 4 → ℚ) (T : Fin 4 → Fin 4 → ℚ) (L : Fin 4 → ℚ) (c : Fin 4) : Fin 4 :=
  if 0 < (innerMax pp T L c).1 then (innerMax pp T L c).2.getD 2 else 2

/-- `numpy.argmax` over a 4-vector: first index attaining the maximum. -/
def argmaxFin (v : Fin 4 → ℚ) : Fin 4 :=
  (List.finRange 4).foldl (fun best p => if v p > v best then p else best) 0

/-! ### buildCNVs -/

/-- Backtracked most-likely states: `mostLikelyStates[-1] = 2` and
`mostLikelyStates[cei-1] = path[cei][mostLikelyStates[cei]]`
(the first path entry is never read, as in the source). -/
def mlsFn : List (Fin 4 → Fin 4) → List (Fin 4)
  | [] => []
  | [_] => [(2 : Fin 4)]
  | _ :: p1 :: rest =>
      let tailMls := mlsFn (p1 :: rest)
      p1 tailMls.headI :: tailMls

/-- Sentinel tail for `calledExons` when the last state is not CN2: the source
appends a bogus exon index -1. -/
def bogusCes (ces : List ℤ) (lastState : Fin 4) : List ℤ :=
  if lastState ≠ 2 then ces ++ [(-1 : ℤ)] else ces

/-- Sentinel tail for `path`: `numpy.array([0, 0, lastState, 0])`. -/
def bogusPath (path : List (Fin 4 → Fin 4)) (lastState : Fin 4) : List (Fin 4 → Fin 4) :=
  if lastState ≠ 2 then path ++ [fun s => if s = 2 then lastState else 0] else path

/-- Sentinel tail for `bestPathProbas`:
`numpy.array([0, 0, bestPathProbas[-1][lastState], 0])`. -/
def bogusBpp (bpp : List (Fin 4 → ℚ)) (lastState : Fin 4) : List (Fin 4 → ℚ) :=
  if lastState ≠ 2 then
    bpp ++ [fun s => if s = 2 then (bpp.getLastD (fun _ => 0)) lastState else 0]
  else bpp

/-- Sentinel tail for `CN2PathProbas`: copy of the last entry. -/
def bogusC2p (c2p : List ℚ) (lastState : Fin 4) : List ℚ :=
  if lastState ≠ 2 then c2p ++ [c2p.getLastD 0] else c2p

/-- The `for cei in range(1, len(calledExons))` scan of `buildCNVs`, iterating
over the explicit list of loop indices.  On a state change away from a
non-CN2 state, a CNV is emitted whose quality ratio is
`bestPathProbas[cei][mls[cei]] / CN2PathProbas[cei]`, further divided by
`bestPathProbas[fi-1][mls[fi-1]]` and multiplied by `CN2PathProbas[fi-1]`
when the run does not start at the path root. -/
def segLoop (ces : List ℤ) (mls : List (Fin 4)) (bpp : List (Fin 4 → ℚ)) (c2p : List ℚ)
    (sampleID : String) : List ℕ → Fin 4 → ℕ → List CNV
  | [], _, _ => []
  | cei :: rest, currentState, fi =>
    if mls.getD cei 0 = currentState then
      segLoop ces mls bpp c2p sampleID rest currentState fi
    else
      let tailCNVs := segLoop ces mls bpp c2p sampleID rest (mls.getD cei 0) cei
      if currentState ≠ 2 then
        { cnState := currentState
          firstExon := ces.getD fi 0
          lastExon := ces.getD (cei - 1) 0
          qualRatio :=
            (let q1 := (bpp.getD cei (fun _ => 0)) (mls.getD cei 0) / c2p.getD cei 0
             if 0 < fi then
               q1 / (bpp.getD (fi - 1) (fun _ => 0)) (mls.getD (fi - 1) 0) * c2p.getD (fi - 1) 0
             else q1)
          sampleID := sampleID } :: tailCNVs
      else tailCNVs

/-- `buildCNVs` from callCNVs/callCNVs.py: append the sentinel tail when the
last state is not CN2, backtrack the most likely states, then scan for maximal
constant-state runs. -/
def buildCNVs (calledExons : List ℤ) (path : List (Fin 4 → Fin 4)) (bpp : List (Fin 4 → ℚ))
    (c2p : List ℚ) (lastState : Fin 4) (sampleID : String) : List CNV :=
  let ces := bogusCes calledExons lastState
  let mls := mlsFn (bogusPath path lastState)
  segLoop ces mls (bogusBpp bpp lastState) (bogusC2p c2p lastState) sampleID
    (List.range' 1 (ces.length - 1)) mls.headI 0

/-! ### The per-sample forward pass -/

/-- Working state of `callCNVsOneSample`'s forward loop. -/
structure VState where
  probsPrev : Fin 4 → ℚ
  prevChrom : String
  prevEnd : ℤ
  calledExons : List ℤ
  path : List (Fin 4 → Fin 4)
  bpp : List (Fin 4 → ℚ)
  c2p : List ℚ
  cnvs : List CNV

/-- Path-root initialization `probsPrev = [0, 0, 1, 0]`. -/
def initProbs : Fin 4 → ℚ := fun s => if s = 2 then 1 else 0

/-- Flush used at a chromosome change and after the last exon: build CNVs from
the pending buffers when some exon's bestPath-to-CN2 was non-CN2, with
`lastState = bestPathProbas[-1].argmax()`. -/
def chromFlush (st : VState) (sampleID : String) : List CNV :=
  if st.path.any (fun p => p 2 != 2) then
    buildCNVs st.calledExons st.path st.bpp st.c2p (argmaxFin (st.bpp.getLastD (fun _ => 0)))
      sampleID
  else []

/-- Flush used inside the CN2-rebase block, with `lastState = 2`. -/
def rebaseFlush (st : VState) (sampleID : String) : List CNV :=
  if st.path.any (fun p => p 2 != 2) then
    buildCNVs st.calledExons st.path st.bpp st.c2p 2 sampleID
  else []

/-- `numpy.all(bestPrevState == 2)`. -/
def allCN2 (bp : Fin 4 → Fin 4) : Bool :=
  (List.finRange 4).all (fun c => bp c == 2)

/-- Chromosome-change handling at the top of the loop body: flush the pending
buffers and reinitialize at the path root when the current exon starts a new
chromosome. -/
def chromReset (st : VState) (ex : Exon) (dmax : ℤ) (sampleID : String) : VState :=
  if ex.chrom ≠ st.prevChrom then
    { probsPrev := initProbs, prevChrom := ex.chrom, prevEnd := -dmax,
      calledExons := [], path := [], bpp := [], c2p := [],
      cnvs := st.cnvs ++ chromFlush st sampleID }
  else st

/-- The backtrack-and-reset part of the CN2-rebase block: when every best
predecessor is CN2, flush the pending buffers (with `lastState = 2`) and, when
any exon has been recorded, clear the four per-segment buffers. -/
def rebaseReset (st1 : VState) (bp : Fin 4 → Fin 4) (sampleID : String) : VState :=
  if allCN2 bp then
    if st1.calledExons ≠ [] then
      { probsPrev := st1.probsPrev, prevChrom := st1.prevChrom, prevEnd := st1.prevEnd,
        calledExons := [], path := [], bpp := [], c2p := [],
        cnvs := st1.cnvs ++ rebaseFlush st1 sampleID }
    else { st1 with cnvs := st1.cnvs ++ rebaseFlush st1 sampleID }
  else st1

/-- Loop body for one called exon, after the chromosome-change handling.
Computes the adjusted transitions, the per-state maxima and best predecessors,
the CN2-path probability, applies the rebase block, and appends the exon to
all buffers.  `doDiv = true` is the source; `doDiv = false` skips only the two
renormalization divisions of the rebase block. -/
def stepAppend (doDiv : Bool) (adjT : ℤ → Fin 4 → Fin 4 → ℚ) (L : ℕ → Fin 4 → ℚ)
    (sampleID : String) (ex : Exon) (eIdx : ℕ) (st1 : VState) : VState :=
  let T := adjT (ex.start - st1.prevEnd - 1)
  let pc : Fin 4 → ℚ := fun c => probsCurF st1.probsPrev T (L eIdx) c
  let bp : Fin 4 → Fin 4 := fun c => bestPrevFin st1.probsPrev T (L eIdx) c
  let c2 : ℚ := st1.probsPrev 2 * T 2 2 * L eIdx 2
  let st2 := rebaseReset st1 bp sampleID
  let doRenorm : Bool := doDiv && allCN2 bp && decide (st1.calledExons ≠ [])
  let pc2 : Fin 4 → ℚ := if doRenorm then fun c => pc c / st1.probsPrev 2 else pc
  let c22 : ℚ := if doRenorm then c2 / st1.c2p.getLastD 0 else c2
  { probsPrev := pc2, prevChrom := st1.prevChrom, prevEnd := ex.stop,
    calledExons := st2.calledExons ++ [(eIdx : ℤ)],
    path := st2.path ++ [bp],
    bpp := st2.bpp ++ [pc2],
    c2p := st2.c2p ++ [c22],
    cnvs := st2.cnvs }

/-- One iteration of the `for exonIndex in range(len(exons))` loop of
`callCNVsOneSample`: skip no-call exons, otherwise handle a chromosome change
and run the loop body. -/
def viterbiStep (doDiv : Bool) (adjT : ℤ → Fin 4 → Fin 4 → ℚ) (L : ℕ → Fin 4 → ℚ)
    (sampleID : String) (dmax : ℤ) (ex : Exon) (eIdx : ℕ) (st : VState) : VState :=
  if L eIdx 0 = -1 then st
  else stepAppend doDiv adjT L sampleID ex eIdx (chromReset st ex dmax sampleID)

/-- The forward loop over the exon list, carrying the running exon index. -/
def viterbiRun (doDiv : Bool) (adjT : ℤ → Fin 4 → Fin 4 → ℚ) (L : ℕ → Fin 4 → ℚ)
    (sampleID : String) (dmax : ℤ) : List Exon → ℕ → VState → VState
  | [], _, st => st
  | ex :: rest, i, st =>
      viterbiRun doDiv adjT L sampleID dmax rest (i + 1)
        (viterbiStep doDiv adjT L sampleID dmax ex i st)

/-- `callCNVsOneSample`, parametrised by `doDiv` (see `viterbiStep`). -/
def callCNVsOneSampleGen (doDiv : Bool) (L : ℕ → Fin 4 → ℚ) (adjT : ℤ → Fin 4 → Fin 4 → ℚ)
    (sampleID : String) (exons : List Exon) (dmax : ℤ) : List CNV :=
  let st0 : VState :=
    { probsPrev := initProbs, prevChrom := exons.headI.chrom, prevEnd := -dmax,
      calledExons := [], path := [], bpp := [], c2p := [], cnvs := [] }
  let fin := viterbiRun doDiv adjT L sampleID dmax exons 0 st0
  fin.cnvs ++ chromFlush fin sampleID

/-- `callCNVsOneSample` from callCNVs/callCNVs.py (the source decoder, with
the CN2-rebase renormalization enabled). -/
def callCNVsOneSample (L : ℕ → Fin 4 → ℚ) (adjT : ℤ → Fin 4 → Fin 4 → ℚ)
    (sampleID : String) (exons : List Exon) (dmax : ℤ) : List CNV :=
  callCNVsOneSampleGen true L adjT sampleID exons dmax

/-- The decoder with the CN2-rebase renormalization step disabled, following
the specification's description of the stabilization as a pure numeric
rescaling.  Used only to compare against `callCNVsOneSample`. -/
def callCNVsOneSampleNoRebase (L : ℕ → Fin 4 → ℚ) (adjT : ℤ → Fin 4 → Fin 4 → ℚ)
    (sampleID : String) (exons : List Exon) (dmax : ℤ) : List CNV :=
  callCNVsOneSampleGen false L adjT sampleID exons dmax

/-! ### applyHMM and countCNVs -/

/-- Python `range` applied to a list: `range(cnCounts)` in `countCNVs` raises
TypeError on every call, since range expects an integer. -/
def pyRangeOfList (_ : List ℕ) : Except String (List ℕ) :=
  Except.error "TypeError: 'list' object cannot be interpreted as an integer"

/-- `countCNVs` from callCNVs/callCNVs.py: count the CNVs per CN state, then
build the log line with `[... for cn in range(cnCounts)]` where `cnCounts` is
the 4-element list itself, so the comprehension's `range` call raises before
anything is logged. -/
def countCNVs (sampCNVs : List CNV) : Except String Unit := do
  let cnCounts : List ℕ :=
    [(sampCNVs.filter (fun c => c.cnState == 0)).length,
     (sampCNVs.filter (fun c => c.cnState == 1)).length,
     (sampCNVs.filter (fun c => c.cnState == 2)).length,
     (sampCNVs.filter (fun c => c.cnState == 3)).length]
  let _ ← pyRangeOfList cnCounts
  pure ()

/-- A sample's likelihood array: a numpy 2D array whose column count is data
(the source sanity-checks it against the transition matrix size). -/
structure LikArr where
  width : ℕ
  val : ℕ → Fin 4 → ℚ

/-- The sanity check and exception wrapper of `callCNVsOneSample`: any internal
failure is re-raised as `Exception(sampleID)`. -/
def callCNVsOneSampleE (lik : LikArr) (adjT : ℤ → Fin 4 → Fin 4 → ℚ) (sampleID : String)
    (exons : List Exon) (dmax : ℤ) : Except String (List CNV) :=
  if lik.width ≠ 4 then Except.error sampleID
  else Except.ok (callCNVsOneSample lik.val adjT sampleID exons dmax)

/-- The per-sample loop of `applyHMM`: for each sample, decode the autosome
then the gonosome slice when present; the source's `except` block logs and
re-raises, so a failure propagates unchanged. -/
def applyHMMLoop (likA likG : String → Option LikArr) (adjT : ℤ → Fin 4 → Fin 4 → ℚ)
    (exonsA exonsG : List Exon) (dmax : ℤ) :
    List String → List CNV → List CNV → Except String (List CNV × List CNV)
  | [], accA, accG => Except.ok (accA, accG)
  | sampID :: rest, accA, accG =>
    match (match likA sampID with
           | some lik => (callCNVsOneSampleE lik adjT sampID exonsA dmax).map (accA ++ ·)
           | none => Except.ok accA) with
    | Except.error e => Except.error e
    | Except.ok accA2 =>
      match (match likG sampID with
             | some lik => (callCNVsOneSampleE lik adjT sampID exonsG dmax).map (accG ++ ·)
             | none => Except.ok accG) with
      | Except.error e => Except.error e
      | Except.ok accG2 => applyHMMLoop likA likG adjT exonsA exonsG dmax rest accA2 accG2

/-- `applyHMM` from callCNVs/callCNVs.py: run the per-sample loop, then call
`countCNVs` on each accumulated list before returning. -/
def applyHMM (samples : List String) (likA likG : String → Option LikArr)
    (adjT : ℤ → Fin 4 → Fin 4 → ℚ) (exonsA exonsG : List Exon) (dmax : ℤ) :
    Except String (List CNV × List CNV) := do
  let res ← applyHMMLoop likA likG adjT exonsA exonsG dmax samples [] []
  let _ ← countCNVs res.1
  let _ ← countCNVs res.2
  pure res

/-- Whether an `Except` computation returned normally. -/
def exceptOk {α : Type} : Except String α → Bool
  | Except.ok _ => true
  | Except.error _ => false

/-! ## Helper lemmas about the inner maximisation loop -/

lemma finRange4 : List.finRange 4 = [0, 1, 2, 3] := by decide

lemma vFold_eq (q : Fin 4 → ℚ) :
    vFold q = vStep q (vStep q (vStep q (vStep q (-1, none) 0) 1) 2) 3 := by
  rw [vFold, finRange4]; rfl

lemma vFold_spec (q : Fin 4 → ℚ) (hq : ∀ p, 0 ≤ q p) :
    (q 0 ≤ (vFold q).1 ∧ q 1 ≤ (vFold q).1 ∧ q 2 ≤ (vFold q).1 ∧ q 3 ≤ (vFold q).1) ∧
    (∃ p, (vFold q).2 = some p ∧ q p = (vFold q).1 ∧
      (q 0 = (vFold q).1 → p ≤ 0) ∧ (q 1 = (vFold q).1 → p ≤ 1) ∧
      (q 2 = (vFold q).1 → p ≤ 2) ∧ (q 3 = (vFold q).1 → p ≤ 3)) ∧
    0 ≤ (vFold q).1 := by
  have h0 : q 0 > (-1 : ℚ) := lt_of_lt_of_le (by norm_num) (hq 0)
  rw [vFold_eq]
  unfold vStep
  rw [if_pos h0]
  by_cases h1 : q 1 > q 0
  · rw [if_pos h1]
    by_cases h2 : q 2 > q 1
    · rw [if_pos h2]
      by_cases h3 : q 3 > q 2
      · rw [if_pos h3]
        exact ⟨⟨by linarith, by linarith, by linarith, le_refl _⟩,
          ⟨3, rfl, rfl, fun h => by exfalso; linarith, fun h => by exfalso; linarith,
            fun h => by exfalso; linarith, fun _ => le_refl _⟩, hq 3⟩
      · rw [if_neg h3]
        rw [gt_iff_lt, not_lt] at h3
        exact ⟨⟨by linarith, by linarith, le_refl _, by linarith⟩,
          ⟨2, rfl, rfl, fun h => by exfalso; linarith, fun h => by exfalso; linarith,
            fun _ => le_refl _, fun _ => by decide⟩, hq 2⟩
    · rw [if_neg h2]
      rw [gt_iff_lt, not_lt] at h2
      by_cases h3 : q 3 > q 1
      · rw [if_pos h3]
        exact ⟨⟨by linarith, by linarith, by linarith, le_refl _⟩,
          ⟨3, rfl, rfl, fun h => by exfalso; linarith, fun h => by exfalso; linarith,
            fun h => by exfalso; linarith, fun _ => le_refl _⟩, hq 3⟩
      · rw [if_neg h3]
        rw [gt_iff_lt, not_lt] at h3
        exact ⟨⟨by linarith, le_refl _, by linarith, by linarith⟩,
          ⟨1, rfl, rfl, fun h => by exfalso; linarith, fun _ => le_refl _,
            fun _ => by decide, fun _ => by decide⟩, hq 1⟩
  · rw [if_neg h1]
    rw [gt_iff_lt, not_lt] at h1
    by_cases h2 : q 2 > q 0
    · rw [if_pos h2]
      by_cases h3 : q 3 > q 2
      · rw [if_pos h3]
        exact ⟨⟨by linarith, by linarith, by linarith, le_refl _⟩,
          ⟨3, rfl, rfl, fun h => by exfalso; linarith, fun h => by exfalso; linarith,
            fun h => by exfalso; linarith, fun _ => le_refl _⟩, hq 3⟩
      · rw [if_neg h3]
        rw [gt_iff_lt, not_lt] at h3
        exact ⟨⟨by linarith, by linarith, le_refl _, by linarith⟩,
          ⟨2, rfl, rfl, fun h => by exfalso; linarith, fun h => by exfalso; linarith,
            fun _ => le_refl _, fun _ => by decide⟩, hq 2⟩
    · rw [if_neg h2]
      rw [gt_iff_lt, not_lt] at h2
      by_cases h3 : q 3 > q 0
      · rw [if_pos h3]
        exact ⟨⟨by linarith, by linarith, by linarith, le_refl _⟩,
          ⟨3, rfl, rfl, fun h => by exfalso; linarith, fun h => by exfalso; linarith,
            fun h => by exfalso; linarith, fun _ => le_refl _⟩, hq 3⟩
      · rw [if_neg h3]
        rw [gt_iff_lt, not_lt] at h3
        exact ⟨⟨le_refl _, by linarith, by linarith, by linarith⟩,
          ⟨0, rfl, rfl, fun _ => le_refl _, fun _ => by decide,
            fun _ => by decide, fun _ => by decide⟩, hq 0⟩

lemma vStep_scale (q : Fin 4 → ℚ) (s : ℚ) (hs : 0 < s) (p : Fin 4)
    (v w : ℚ × Option (Fin 4)) (hw1 : w.1 = s * v.1) (hw2 : w.2 = v.2) :
    vStep (fun r => s * q r) w p = (s * (vStep q v p).1, (vStep q v p).2) := by
  unfold vStep
  by_cases h : q p > v.1
  · rw [if_pos h, if_pos (by rw [hw1]; exact (mul_lt_mul_left hs).2 h)]
  · rw [if_neg h, if_neg (by rw [hw1]; exact fun hc => h ((mul_lt_mul_left hs).1 hc))]
    exact Prod.ext hw1 hw2

lemma vFold_scale (q : Fin 4 → ℚ) (s : ℚ) (hs : 0 < s) (hq : ∀ p, 0 ≤ q p) :
    vFold (fun r => s * q r) = (s * (vFold q).1, (vFold q).2) := by
  have h0 : q 0 > (-1 : ℚ) := lt_of_lt_of_le (by norm_num) (hq 0)
  have h0s : s * q 0 > (-1 : ℚ) :=
    lt_of_lt_of_le (by norm_num) (mul_nonneg hs.le (hq 0))
  rw [vFold_eq, vFold_eq]
  have e0 : vStep (fun r => s * q r) (-1, none) 0 =
      (s * (vStep q (-1, none) 0).1, (vStep q (-1, none) 0).2) := by
    unfold vStep
    rw [if_pos h0, if_pos h0s]
  have e1 := vStep_scale q s hs 1 (vStep q (-1, none) 0)
    (vStep (fun r => s * q r) (-1, none) 0) (by rw [e0]) (by rw [e0])
  have e2 := vStep_scale q s hs 2 (vStep q (vStep q (-1, none) 0) 1)
    (vStep (fun r => s * q r) (vStep (fun r => s * q r) (-1, none) 0) 1)
    (by rw [e1]) (by rw [e1])
  exact vStep_scale q s hs 3 (vStep q (vStep q (vStep q (-1, none) 0) 1) 2)
    (vStep (fun r => s * q r) (vStep (fun r => s * q r) (vStep (fun r => s * q r) (-1, none) 0) 1) 2)
    (by rw [e2]) (by rw [e2])

lemma prob1_nonneg (pp : Fin 4 → ℚ) (T : Fin 4 → Fin 4 → ℚ) (L : Fin 4 → ℚ) (p c : Fin 4)
    (hpp : 0 ≤ pp p) (hT : 0 ≤ T p c) (hL : 0 ≤ L c) : 0 ≤ prob1 pp T L p c :=
  mul_nonneg (mul_nonneg hpp hT) hL

lemma prob1_scale (pp : Fin 4 → ℚ) (T : Fin 4 → Fin 4 → ℚ) (L : Fin 4 → ℚ) (s : ℚ)
    (p c : Fin 4) : prob1 (fun r => s * pp r) T L p c = s * prob1 pp T L p c := by
  unfold prob1; ring

lemma innerMax_scale (pp : Fin 4 → ℚ) (T : Fin 4 → Fin 4 → ℚ) (L : Fin 4 → ℚ) (c : Fin 4)
    (s : ℚ) (hs : 0 < s) (hq : ∀ p, 0 ≤ prob1 pp T L p c) :
    innerMax (fun r => s * pp r) T L c = (s * (innerMax pp T L c).1, (innerMax pp T L c).2) := by
  unfold innerMax
  have : (fun p => prob1 (fun r => s * pp r) T L p c) =
      fun p => s * prob1 pp T L p c := by
    funext p; exact prob1_scale pp T L s p c
  rw [this]
  exact vFold_scale _ s hs hq

lemma probsCurF_scale (pp : Fin 4 → ℚ) (T : Fin 4 → Fin 4 → ℚ) (L : Fin 4 → ℚ) (c : Fin 4)
    (s : ℚ) (hs : 0 < s) (hq : ∀ p, 0 ≤ prob1 pp T L p c) :
    probsCurF (fun r => s * pp r) T L c = s * probsCurF pp T L c := by
  unfold probsCurF
  rw [innerMax_scale pp T L c s hs hq]

lemma bestPrevFin_scale (pp : Fin 4 → ℚ) (T : Fin 4 → Fin 4 → ℚ) (L : Fin 4 → ℚ) (c : Fin 4)
    (s : ℚ) (hs : 0 < s) (hq : ∀ p, 0 ≤ prob1 pp T L p c) :
    bestPrevFin (fun r => s * pp r) T L c = bestPrevFin pp T L c := by
  unfold bestPrevFin
  rw [innerMax_scale pp T L c s hs hq]
  have hiff : 0 < s * (innerMax pp T L c).1 ↔ 0 < (innerMax pp T L c).1 := by
    constructor
    · intro h
      by_contra hn
      push_neg at hn
      nlinarith
    · exact fun h => mul_pos hs h
  by_cases h : 0 < (innerMax pp T L c).1
  · rw [if_pos h, if_pos (hiff.2 h)]
  · rw [if_neg h, if_neg (fun hc => h (hiff.1 hc))]

lemma argmaxFin_scale (v : Fin 4 → ℚ) (s : ℚ) (hs : 0 < s) :
    argmaxFin (fun c => s * v c) = argmaxFin v := by
  unfold argmaxFin
  rw [finRange4]
  simp only [List.foldl, gt_iff_lt, mul_lt_mul_left hs]

lemma le_probsCurF (pp : Fin 4 → ℚ) (T : Fin 4 → Fin 4 → ℚ) (L : Fin 4 → ℚ) (c : Fin 4)
    (hq : ∀ p, 0 ≤ prob1 pp T L p c) (p : Fin 4) :
    prob1 pp T L p c ≤ probsCurF pp T L c := by
  have h := (vFold_spec (fun r => prob1 pp T L r c) hq).1
  fin_cases p
  · exact h.1
  · exact h.2.1
  · exact h.2.2.1
  · exact h.2.2.2

lemma probsCurF_nonneg (pp : Fin 4 → ℚ) (T : Fin 4 → Fin 4 → ℚ) (L : Fin 4 → ℚ) (c : Fin 4)
    (hq : ∀ p, 0 ≤ prob1 pp T L p c) : 0 ≤ probsCurF pp T L c :=
  (vFold_spec (fun r => prob1 pp T L r c) hq).2.2

/-! ## Claim C6: the CN0 emission density -/

/-- C6: for every sample FPM value x at a callable exon with fitted mean mu,
the CN0 emission density equals gammaPdf(x) / (1 - gammaCDF(uncovThreshold))
when x ≤ mu/2, and 0 when x > mu/2. -/
theorem c6_cn0_truncated_gamma (gammaPdf gammaCdf : ℚ → ℚ) (x t mu : ℚ) :
    cn0density gammaPdf gammaCdf x t mu =
      if x ≤ mu / 2 then gammaPdf x / (1 - gammaCdf t) else 0 := by
  unfold cn0density
  split_ifs with h
  · rw [one_div, inv_mul_eq_div]
  · rfl

/-! ## Claim C1: normalization of the emission vector -/

/-- C1 (amended): the per-sample vector returned for a callable exon is the
prior-weighted density vector divided by its sum; whenever that sum is
positive the entries are all non-negative and sum exactly to 1.  (When the sum
is 0 the source divides anyway, yielding NaN in numpy, not the -1 sentinel;
see the counterexample.) -/
theorem c1_emission_normalized (gammaPdf gammaCdf : ℚ → ℚ) (normPdf : ℚ → ℚ → ℚ → ℚ)
    (x t mu sd : ℚ) (priors : Fin 4 → ℚ)
    (hd : ∀ i, 0 ≤ pdens gammaPdf gammaCdf normPdf x t mu sd i)
    (hpri : ∀ i, 0 ≤ priors i)
    (hpos : 0 < pwTotal gammaPdf gammaCdf normPdf x t mu sd priors) :
    (∀ i, computeProbabilites gammaPdf gammaCdf normPdf x t mu sd priors i =
      priorWeighted gammaPdf gammaCdf normPdf x t mu sd priors i /
        pwTotal gammaPdf gammaCdf normPdf x t mu sd priors) ∧
    (∀ i, 0 ≤ computeProbabilites gammaPdf gammaCdf normPdf x t mu sd priors i) ∧
    computeProbabilites gammaPdf gammaCdf normPdf x t mu sd priors 0 +
      computeProbabilites gammaPdf gammaCdf normPdf x t mu sd priors 1 +
      computeProbabilites gammaPdf gammaCdf normPdf x t mu sd priors 2 +
      computeProbabilites gammaPdf gammaCdf normPdf x t mu sd priors 3 = 1 := by
  refine ⟨fun i => rfl, fun i => ?_, ?_⟩
  · exact div_nonneg (mul_nonneg (hd i) (hpri i)) hpos.le
  · show priorWeighted gammaPdf gammaCdf normPdf x t mu sd priors 0 /
        pwTotal gammaPdf gammaCdf normPdf x t mu sd priors +
      priorWeighted gammaPdf gammaCdf normPdf x t mu sd priors 1 /
        pwTotal gammaPdf gammaCdf normPdf x t mu sd priors +
      priorWeighted gammaPdf gammaCdf normPdf x t mu sd priors 2 /
        pwTotal gammaPdf gammaCdf normPdf x t mu sd priors +
      priorWeighted gammaPdf gammaCdf normPdf x t mu sd priors 3 /
        pwTotal gammaPdf gammaCdf normPdf x t mu sd priors = 1
    rw [div_add_div_same, div_add_div_same, div_add_div_same]
    exact div_self hpos.ne'

/-- C1 witness: a concrete callable-exon evaluation with positive total. -/
theorem c1_emission_normalized_witness :
    (∀ i, computeProbabilites (fun _ => 1/2) (fun _ => 1/2) (fun _ _ _ => 1/3)
      1 1 4 1 (fun _ => 1/4) i =
      priorWeighted (fun _ => 1/2) (fun _ => 1/2) (fun _ _ _ => 1/3)
        1 1 4 1 (fun _ => 1/4) i /
      pwTotal (fun _ => 1/2) (fun _ => 1/2) (fun _ _ _ => 1/3) 1 1 4 1 (fun _ => 1/4)) ∧
    (∀ i, 0 ≤ computeProbabilites (fun _ => 1/2) (fun _ => 1/2) (fun _ _ _ => 1/3)
      1 1 4 1 (fun _ => 1/4) i) ∧
    computeProbabilites (fun _ => 1/2) (fun _ => 1/2) (fun _ _ _ => 1/3) 1 1 4 1 (fun _ => 1/4) 0 +
      computeProbabilites (fun _ => 1/2) (fun _ => 1/2) (fun _ _ _ => 1/3) 1 1 4 1 (fun _ => 1/4) 1 +
      computeProbabilites (fun _ => 1/2) (fun _ => 1/2) (fun _ _ _ => 1/3) 1 1 4 1 (fun _ => 1/4) 2 +
      computeProbabilites (fun _ => 1/2) (fun _ => 1/2) (fun _ _ _ => 1/3) 1 1 4 1 (fun _ => 1/4) 3
      = 1 :=
  c1_emission_normalized (fun _ => 1/2) (fun _ => 1/2) (fun _ _ _ => 1/3) 1 1 4 1 (fun _ => 1/4)
    (by intro i; fin_cases i <;> norm_num +decide [pdens, cn0density])
    (fun _ => by norm_num)
    (by norm_num +decide [pwTotal, priorWeighted, pdens, cn0density])

/-- C1 counterexample: when the prior-weighted density sum is 0 (all densities
vanish, e.g. the Gaussian pdfs underflow to 0 and x > mu/2), the code does not
return the -1 sentinel, and the returned entries do not sum to 1 within 1e-6:
the division is performed regardless (NaN in numpy, 0-vector in this exact
embedding). -/
theorem c1_zero_sum_counterexample :
    pwTotal (fun _ => 1) (fun _ => 0) (fun _ _ _ => 0) 10 1 2 1 (fun _ => 1/4) = 0 ∧
    ¬ ((∀ i, computeProbabilites (fun _ => 1) (fun _ => 0) (fun _ _ _ => 0)
          10 1 2 1 (fun _ => 1/4) i = -1) ∨
       ((∀ i, 0 ≤ computeProbabilites (fun _ => 1) (fun _ => 0) (fun _ _ _ => 0)
          10 1 2 1 (fun _ => 1/4) i) ∧
        |computeProbabilites (fun _ => 1) (fun _ => 0) (fun _ _ _ => 0) 10 1 2 1 (fun _ => 1/4) 0 +
          computeProbabilites (fun _ => 1) (fun _ => 0) (fun _ _ _ => 0) 10 1 2 1 (fun _ => 1/4) 1 +
          computeProbabilites (fun _ => 1) (fun _ => 0) (fun _ _ _ => 0) 10 1 2 1 (fun _ => 1/4) 2 +
          computeProbabilites (fun _ => 1) (fun _ => 0) (fun _ _ _ => 0) 10 1 2 1 (fun _ => 1/4) 3
          - 1| ≤ 1/1000000)) := by
  have h0 : ∀ i, computeProbabilites (fun _ => 1) (fun _ => 0) (fun _ _ _ => 0)
      10 1 2 1 (fun _ => 1/4) i = 0 := by
    intro i
    fin_cases i <;>
      norm_num [computeProbabilites, priorWeighted, pdens, cn0density, pwTotal]
  refine ⟨by norm_num [pwTotal, priorWeighted, pdens, cn0density], ?_⟩
  rintro (h | ⟨_, habs⟩)
  · have h1 := h 0
    rw [h0 0] at h1
    norm_num at h1
  · rw [h0 0, h0 1, h0 2, h0 3] at habs
    norm_num at habs

/-! ## Claim C5: the recorded best predecessor -/

/-- The probsPrev vector [1, 1, 0, 0] used by the C5 tie counterexample. -/
def tiePP : Fin 4 → ℚ := fun p => if p = 0 ∨ p = 1 then 1 else 0

/-- C5 counterexample: when the maximum is attained by more than one
predecessor and is positive, the recorded best predecessor is the smallest
attaining index (here 0), not the claimed CN2 default. -/
theorem c5_tie_counterexample :
    probsCurF tiePP (fun _ _ => 1) (fun _ => 1) 0 = 1 ∧
    prob1 tiePP (fun _ _ => 1) (fun _ => 1) 0 0 =
      probsCurF tiePP (fun _ _ => 1) (fun _ => 1) 0 ∧
    prob1 tiePP (fun _ _ => 1) (fun _ => 1) 1 0 =
      probsCurF tiePP (fun _ _ => 1) (fun _ => 1) 0 ∧
    bestPrevFin tiePP (fun _ _ => 1) (fun _ => 1) 0 ≠ 2 := by
  refine ⟨?_, ?_, ?_, ?_⟩ <;>
    norm_num +decide [probsCurF, bestPrevFin, innerMax, vFold, finRange4, vStep, prob1, tiePP]

/-- C5 (amended): `probsCurrent[c]` is the maximum of
`probsPrev[p]*T'[p,c]*L[e,s,c]` over p; when that maximum is positive the
recorded best predecessor attains it and is the smallest attaining index
(ties break toward the smallest predecessor, not CN2); the CN2 default is
recorded exactly when the maximum is 0. -/
theorem c5_best_predecessor (pp : Fin 4 → ℚ) (T : Fin 4 → Fin 4 → ℚ) (L : Fin 4 → ℚ)
    (c : Fin 4) (hq : ∀ p, 0 ≤ prob1 pp T L p c) :
    (∀ p, prob1 pp T L p c ≤ probsCurF pp T L c) ∧
    (0 < probsCurF pp T L c →
      prob1 pp T L (bestPrevFin pp T L c) c = probsCurF pp T L c ∧
      ∀ p, prob1 pp T L p c = probsCurF pp T L c → bestPrevFin pp T L c ≤ p) ∧
    (probsCurF pp T L c = 0 → bestPrevFin pp T L c = 2) := by
  obtain ⟨_, ⟨p, hp2, hpeq, hl0, hl1, hl2, hl3⟩, _⟩ :=
    vFold_spec (fun r => prob1 pp T L r c) hq
  refine ⟨le_probsCurF pp T L c hq, ?_, ?_⟩
  · intro hposv
    have hposv2 : 0 < (innerMax pp T L c).1 := hposv
    have hp2x : (innerMax pp T L c).2 = some p := hp2
    have hbp : bestPrevFin pp T L c = p := by
      unfold bestPrevFin
      rw [if_pos hposv2, hp2x]
      rfl
    constructor
    · rw [hbp]; exact hpeq
    · intro r hr
      rw [hbp]
      fin_cases r
      · exact hl0 hr
      · exact hl1 hr
      · exact hl2 hr
      · exact hl3 hr
  · intro h0
    have h0x : (innerMax pp T L c).1 = 0 := h0
    unfold bestPrevFin
    rw [if_neg]
    rw [h0x]
    exact lt_irrefl 0

/-- C5 witness: concrete inputs with positive maximum, exercising the amended
characterization. -/
theorem c5_best_predecessor_witness :
    (∀ p, prob1 (fun _ => 1) (fun _ _ => 1) (fun _ => 1) p 0 ≤
      probsCurF (fun _ => 1) (fun _ _ => 1) (fun _ => 1) 0) ∧
    (0 < probsCurF (fun _ => 1) (fun _ _ => 1) (fun _ => 1) 0 →
      prob1 (fun _ => 1) (fun _ _ => 1) (fun _ => 1)
        (bestPrevFin (fun _ => 1) (fun _ _ => 1) (fun _ => 1) 0) 0 =
        probsCurF (fun _ => 1) (fun _ _ => 1) (fun _ => 1) 0 ∧
      ∀ p, prob1 (fun _ => 1) (fun _ _ => 1) (fun _ => 1) p 0 =
        probsCurF (fun _ => 1) (fun _ _ => 1) (fun _ => 1) 0 →
        bestPrevFin (fun _ => 1) (fun _ _ => 1) (fun _ => 1) 0 ≤ p) ∧
    (probsCurF (fun _ => 1) (fun _ _ => 1) (fun _ => 1) 0 = 0 →
      bestPrevFin (fun _ => 1) (fun _ _ => 1) (fun _ => 1) 0 = 2) :=
  c5_best_predecessor (fun _ => 1) (fun _ _ => 1) (fun _ => 1) 0
    (fun p => by norm_num [prob1])

/-! ## Claim C9: zero median fails the robust Gaussian fit -/

/-- C9: started without an initial mean, the fitter takes mu to be the median
of the input and raises "cannot fit" whenever that median is 0, for every
fuel bound and every value of the numeric oracles. -/
theorem c9_zero_median_fails (fuel : ℕ) (sqrtFn : ℚ → ℚ) (sqrt2pi : ℚ) (X : List ℚ)
    (bandwidth eps : ℚ) (hmed : npMedian X = 0) :
    robustGaussianFit fuel sqrtFn sqrt2pi X none none bandwidth eps =
      Except.error "cannot fit" := by
  unfold robustGaussianFit
  simp only [hmed, if_pos]
  rfl

/-! ## Claim C7: the uncovered-exon threshold -/

lemma le_getLast_of_pairwise_lt (l : List ℕ) (hp : l.Pairwise (· < ·)) :
    ∀ x ∈ l, ∀ h : l ≠ [], x ≤ l.getLast h := by
  induction l with
  | nil => intro x hx; exact absurd hx (List.not_mem_nil x)
  | cons a t ih =>
    intro x hx h
    rcases List.mem_cons.1 hx with hxa | hxt
    · subst hxa
      cases t with
      | nil => simp [List.getLast]
      | cons b t2 =>
        have ht : b :: t2 ≠ [] := by simp
        rw [List.getLast_cons ht]
        have hlt := (List.pairwise_cons.1 hp).1
        exact (hlt _ (List.getLast_mem ht)).le
    · cases t with
      | nil => exact absurd hxt (List.not_mem_nil x)
      | cons b t2 =>
        have ht : b :: t2 ≠ [] := by simp
        rw [List.getLast_cons ht]
        exact ih (List.pairwise_cons.1 hp).2 x hxt ht

lemma fitGammaThreshold_eq (lowTail : List ℚ) (gammaCdf : ℚ → ℚ) :
    fitGammaThreshold lowTail gammaCdf =
      match ((List.range (lowTail.insertionSort (· ≤ ·)).length).filter
          (fun i => decide (((lowTail.insertionSort (· ≤ ·)).map gammaCdf).getD i 0
            < 95 / 100))).getLast? with
      | none => Except.error "IndexError"
      | some j => Except.ok ((lowTail.insertionSort (· ≤ ·)).getD j 0) := rfl

/-- C7 (amended): when some tail element has fitted-gamma CDF below 0.95, the
returned `uncovThreshold` is the largest such element (given that the CDF
oracle is monotone, as a real CDF is); when every CDF is at least 0.95 the
code raises an uncaught IndexError (from `np.where(...)[0][-1]` on an empty
index array) rather than the tagged NO_UNCOV_THRESHOLD failure. -/
theorem c7_threshold_amended (lowTail : List ℚ) (gammaCdf : ℚ → ℚ) :
    ((∃ x ∈ lowTail, gammaCdf x < 95 / 100) →
      ∃ v, fitGammaThreshold lowTail gammaCdf = Except.ok v ∧ v ∈ lowTail ∧
        gammaCdf v < 95 / 100 ∧ ∀ y ∈ lowTail, gammaCdf y < 95 / 100 → y ≤ v) ∧
    ((∀ y ∈ lowTail, ¬ gammaCdf y < 95 / 100) →
      fitGammaThreshold lowTail gammaCdf = Except.error "IndexError") := by
  have hperm : (lowTail.insertionSort (· ≤ ·)).Perm lowTail := List.perm_insertionSort _ _
  have hsort : (lowTail.insertionSort (· ≤ ·)).Sorted (· ≤ ·) := List.sorted_insertionSort _ _
  set s := lowTail.insertionSort (· ≤ ·) with hs
  have hcdf : ∀ i, ∀ hi : i < s.length, (s.map gammaCdf).getD i 0 = gammaCdf s[i] := by
    intro i hi
    rw [List.getD_eq_getElem _ _ (by simpa using hi), List.getElem_map]
  set idxs := (List.range s.length).filter
      (fun i => decide ((s.map gammaCdf).getD i 0 < 95 / 100)) with hidxs
  constructor
  · rintro ⟨x, hx, hxlt⟩
    obtain ⟨i, hi, hieq⟩ := List.mem_iff_getElem.1 (hperm.mem_iff.2 hx)
    have hiidx : i ∈ idxs := by
      rw [hidxs, List.mem_filter]
      refine ⟨List.mem_range.2 hi, ?_⟩
      simp only [decide_eq_true_eq]
      rw [hcdf i hi, hieq]
      exact hxlt
    have hne : idxs ≠ [] := List.ne_nil_of_mem hiidx
    have hlast : idxs.getLast? = some (idxs.getLast hne) := List.getLast?_eq_getLast idxs hne
    have hjmem : idxs.getLast hne ∈ idxs := List.getLast_mem hne
    have hidx_spec : ∀ k, k ∈ idxs →
        k < s.length ∧ (s.map gammaCdf).getD k 0 < 95 / 100 := by
      intro k hk
      rw [hidxs, List.mem_filter, List.mem_range, decide_eq_true_eq] at hk
      exact hk
    obtain ⟨hj, hjpred⟩ := hidx_spec _ hjmem
    refine ⟨s.getD (idxs.getLast hne) 0, ?_, ?_, ?_, ?_⟩
    · rw [fitGammaThreshold_eq, ← hs, ← hidxs]
      simp only [hlast]
    · rw [List.getD_eq_getElem _ _ hj]
      exact hperm.subset (List.getElem_mem hj)
    · rw [List.getD_eq_getElem _ _ hj, ← hcdf _ hj]
      exact hjpred

    · intro y hy hylt
      obtain ⟨iy, hiy, hiyeq⟩ := List.mem_iff_getElem.1 (hperm.mem_iff.2 hy)
      have hiyidx : iy ∈ idxs := by
        rw [hidxs, List.mem_filter]
        refine ⟨List.mem_range.2 hiy, ?_⟩
        simp only [decide_eq_true_eq]
        rw [hcdf iy hiy, hiyeq]
        exact hylt
      have hpw : idxs.Pairwise (· < ·) := by
        rw [hidxs]
        exact List.Pairwise.filter _ (List.pairwise_lt_range _)
      have hle : iy ≤ idxs.getLast hne := le_getLast_of_pairwise_lt idxs hpw iy hiyidx hne
      have := @List.Sorted.rel_get_of_le ℚ (· ≤ ·) inferInstance s hsort
        ⟨iy, hiy⟩ ⟨idxs.getLast hne, hj⟩ (Fin.mk_le_mk.2 hle)
      rw [List.get_eq_getElem, List.get_eq_getElem] at this
      rw [List.getD_eq_getElem _ _ hj, ← hiyeq]
      exact this
  · intro hall
    have hfilt : idxs = [] := by
      rw [hidxs]
      refine List.filter_eq_nil_iff.2 ?_
      intro i hi
      rw [List.mem_range] at hi
      simp only [decide_eq_true_eq, not_lt]
      rw [hcdf i hi]
      exact not_lt.1 (hall _ (hperm.subset (List.getElem_mem hi)))
    rw [fitGammaThreshold_eq, ← hs, ← hidxs]
    simp only [hfilt, List.getLast?_nil]

/-- C7 witness: a tail where every CDF value is below 0.95, so the largest
element is returned. -/
theorem c7_threshold_amended_witness :
    ∃ v, fitGammaThreshold [3, 1, 2] (fun q => q / 4) = Except.ok v ∧ v ∈ [3, 1, 2] ∧
      (fun q : ℚ => q / 4) v < 95 / 100 ∧
      ∀ y ∈ [(3 : ℚ), 1, 2], (fun q : ℚ => q / 4) y < 95 / 100 → y ≤ v :=
  (c7_threshold_amended [3, 1, 2] (fun q => q / 4)).1 ⟨3, by norm_num, by norm_num⟩

/-- C7 counterexample: when every CDF value is at least 0.95, the code raises
IndexError (uncaught in the source), not the tagged NO_UNCOV_THRESHOLD
per-cluster failure the claim describes. -/
theorem c7_indexerror_counterexample :
    fitGammaThreshold [1, 2] (fun _ => 1) = Except.error "IndexError" ∧
    fitGammaThreshold [1, 2] (fun _ => 1) ≠ Except.error NO_UNCOV_THRESHOLD := by
  have h : fitGammaThreshold [1, 2] (fun _ => 1) = Except.error "IndexError" := by
    rw [fitGammaThreshold_eq]
    norm_num [List.insertionSort, List.orderedInsert, List.range_succ]
  refine ⟨h, ?_⟩
  rw [h]
  simp [NO_UNCOV_THRESHOLD]

/-! ## Claims C8 and C10: applyHMM error behaviour -/

lemma countCNVs_error (l : List CNV) :
    countCNVs l =
      Except.error "TypeError: 'list' object cannot be interpreted as an integer" := rfl

/-- C10: `countCNVs` raises TypeError on every invocation (including the empty
list), because `range(cnCounts)` applies `range` to the 4-element counts list;
consequently `applyHMM` never returns normally for any input: every run that
reaches the final per-list accounting raises there, and the others have
already raised in the per-sample loop. -/
theorem c10_applyhmm_always_raises :
    countCNVs ([] : List CNV) =
      Except.error "TypeError: 'list' object cannot be interpreted as an integer" ∧
    ∀ (samples : List String) (likA likG : String → Option LikArr)
      (adjT : ℤ → Fin 4 → Fin 4 → ℚ) (exonsA exonsG : List Exon) (dmax : ℤ),
      exceptOk (applyHMM samples likA likG adjT exonsA exonsG dmax) = false := by
  refine ⟨rfl, ?_⟩
  intro samples likA likG adjT eA eG dmax
  unfold applyHMM
  cases applyHMMLoop likA likG adjT eA eG dmax samples [] [] with
  | error e => rfl
  | ok res => rfl

/-- C8 (amended): a decode failure is associated with the failing sample (the
exception carries that sample's ID), but the batch does NOT continue: the
`except` block re-raises, so `applyHMM` aborts at the first failing sample and
no CNVs are returned for the others. -/
theorem c8_failure_aborts_batch (s : String) (rest : List String)
    (likA likG : String → Option LikArr) (adjT : ℤ → Fin 4 → Fin 4 → ℚ)
    (exonsA exonsG : List Exon) (dmax : ℤ) (lik : LikArr)
    (hA : likA s = some lik) (hw : lik.width ≠ 4) :
    applyHMM (s :: rest) likA likG adjT exonsA exonsG dmax = Except.error s := by
  unfold applyHMM applyHMMLoop callCNVsOneSampleE
  simp only [hA]
  rw [if_pos hw]
  rfl

/-- C8 witness: a malformed first sample aborts the whole batch. -/
theorem c8_failure_aborts_batch_witness :
    applyHMM ["sA", "sB"] (fun n => if n = "sA" then some ⟨2, fun _ _ => 0⟩ else none)
      (fun _ => none) (fun _ _ _ => 0) [] [] 0 = Except.error "sA" :=
  c8_failure_aborts_batch "sA" ["sB"]
    (fun n => if n = "sA" then some ⟨2, fun _ _ => 0⟩ else none)
    (fun _ => none) (fun _ _ _ => 0) [] [] 0 ⟨2, fun _ _ => 0⟩ rfl (by decide)

/-- C8 counterexample: sample "s1" has a malformed likelihood array and "s2" a
well-formed one, yet `applyHMM` returns the error for "s1" and no CNVs at all:
"s2" is not decoded, contradicting the claim that the batch continues. -/
theorem c8_abort_counterexample :
    applyHMM ["s1", "s2"]
      (fun n => if n = "s1" then some ⟨3, fun _ _ => 0⟩
                else if n = "s2" then some ⟨4, fun _ _ => -1⟩ else none)
      (fun _ => none) (fun _ _ _ => 0) [] [] 0 = Except.error "s1" ∧
    exceptOk (applyHMM ["s1", "s2"]
      (fun n => if n = "s1" then some ⟨3, fun _ _ => 0⟩
                else if n = "s2" then some ⟨4, fun _ _ => -1⟩ else none)
      (fun _ => none) (fun _ _ _ => 0) [] [] 0) = false := by
  constructor <;> rfl

/-! ## Claim C3: the quality-score formula -/

lemma headI_eq_getD (l : List (Fin 4)) : l.headI = l.getD 0 0 := by
  cases l <;> rfl

lemma segLoop_runs (ces : List ℤ) (mls : List (Fin 4)) (bpp : List (Fin 4 → ℚ))
    (c2p : List ℚ) (sid : String) :
    ∀ (k c0 : ℕ) (cur : Fin 4) (fi : ℕ),
      c0 + k ≤ ces.length → fi < c0 →
      (∀ j, fi ≤ j → j < c0 → mls.getD j 0 = cur) →
      (fi = 0 ∨ mls.getD (fi - 1) 0 ≠ cur) →
      ∀ cnv ∈ segLoop ces mls bpp c2p sid (List.range' c0 k) cur fi,
        ∃ i j, i ≤ j ∧ j + 1 < ces.length ∧
          mls.getD i 0 ≠ 2 ∧ cnv.cnState = mls.getD i 0 ∧
          (∀ m, i ≤ m → m ≤ j → mls.getD m 0 = mls.getD i 0) ∧
          mls.getD (j + 1) 0 ≠ mls.getD i 0 ∧
          (i = 0 ∨ mls.getD (i - 1) 0 ≠ mls.getD i 0) ∧
          cnv.firstExon = ces.getD i 0 ∧ cnv.lastExon = ces.getD j 0 ∧
          cnv.qualRatio =
            (bpp.getD (j + 1) (fun _ => 0)) (mls.getD (j + 1) 0) / c2p.getD (j + 1) 0 *
              (if i = 0 then 1
               else c2p.getD (i - 1) 0 /
                 (bpp.getD (i - 1) (fun _ => 0)) (mls.getD (i - 1) 0)) := by
  intro k
  induction k with
  | zero =>
    intro c0 cur fi _ _ _ _ cnv hmem
    simp only [List.range'] at hmem
    simp only [segLoop] at hmem
    exact absurd hmem (List.not_mem_nil cnv)
  | succ k ih =>
    intro c0 cur fi hlen hfi hrun hmax cnv hmem
    rw [List.range'_succ] at hmem
    by_cases hsame : mls.getD c0 0 = cur
    · simp only [segLoop, if_pos hsame] at hmem
      exact ih (c0 + 1) cur fi (by omega) (by omega)
        (fun j hj1 hj2 => by
          rcases Nat.lt_succ_iff_lt_or_eq.1 hj2 with h | h
          · exact hrun j hj1 h
          · rw [h]; exact hsame)
        hmax cnv hmem
    · simp only [segLoop, if_neg hsame] at hmem
      have htail : ∀ cnv2 ∈ segLoop ces mls bpp c2p sid (List.range' (c0 + 1) k)
          (mls.getD c0 0) c0, _ := fun cnv2 hmem2 =>
        ih (c0 + 1) (mls.getD c0 0) c0 (by omega) (by omega)
          (fun j hj1 hj2 => by
            have : j = c0 := by omega
            rw [this])
          (Or.inr (by
            rw [hrun (c0 - 1) (by omega) (by omega)]
            exact fun hc => hsame hc.symm))
          cnv2 hmem2
      by_cases hcur : cur ≠ 2
      · rw [if_pos hcur] at hmem
        rcases List.mem_cons.1 hmem with heq | hmemtail
        · refine ⟨fi, c0 - 1, by omega, by omega, ?_, ?_, ?_, ?_, ?_, ?_, ?_, ?_⟩
          · rw [hrun fi (le_refl fi) hfi]; exact hcur
          · rw [heq, hrun fi (le_refl fi) hfi]
          · intro m hm1 hm2
            rw [hrun m hm1 (by omega), hrun fi (le_refl fi) hfi]
          · rw [Nat.sub_add_cancel (by omega : 1 ≤ c0), hrun fi (le_refl fi) hfi]
            exact fun hc => hsame hc
          · rcases hmax with h | h
            · exact Or.inl h
            · exact Or.inr (by rw [hrun fi (le_refl fi) hfi]; exact h)
          · rw [heq]
          · rw [heq]
          · rw [heq, Nat.sub_add_cancel (by omega : 1 ≤ c0)]
            simp only
            by_cases h0 : 0 < fi
            · rw [if_pos h0, if_neg (by omega : ¬ fi = 0)]
              rw [div_mul_eq_mul_div, mul_div_assoc]
            · rw [if_neg h0, if_pos (by omega : fi = 0), mul_one]
        · exact htail cnv hmemtail
      · rw [if_neg hcur] at hmem
        exact htail cnv hmem

/-- C3: every CNV emitted by the segmentation corresponds to a maximal
non-CN2 run [i, j] of the backtracked state sequence (over the buffers as
extended by the sentinel tail), and its quality score is
log( bestPathProbas[j+1][state at j+1] / CN2PathProbas[j+1]
     * CN2PathProbas[i-1] / bestPathProbas[i-1][state at i-1] ),
with the i-1 factor omitted when i = 0. -/
theorem c3_quality_score (calledExons : List ℤ) (path : List (Fin 4 → Fin 4))
    (bpp : List (Fin 4 → ℚ)) (c2p : List ℚ) (lastState : Fin 4) (sid : String)
    (cnv : CNV) (hmem : cnv ∈ buildCNVs calledExons path bpp c2p lastState sid) :
    ∃ i j, i ≤ j ∧ j + 1 < (bogusCes calledExons lastState).length ∧
      (mlsFn (bogusPath path lastState)).getD i 0 ≠ 2 ∧
      cnv.cnState = (mlsFn (bogusPath path lastState)).getD i 0 ∧
      (∀ m, i ≤ m → m ≤ j →
        (mlsFn (bogusPath path lastState)).getD m 0 =
          (mlsFn (bogusPath path lastState)).getD i 0) ∧
      (mlsFn (bogusPath path lastState)).getD (j + 1) 0 ≠
        (mlsFn (bogusPath path lastState)).getD i 0 ∧
      (i = 0 ∨ (mlsFn (bogusPath path lastState)).getD (i - 1) 0 ≠
        (mlsFn (bogusPath path lastState)).getD i 0) ∧
      cnv.firstExon = (bogusCes calledExons lastState).getD i 0 ∧
      cnv.lastExon = (bogusCes calledExons lastState).getD j 0 ∧
      cnv.qualityScore = Real.log
        ((((bogusBpp bpp lastState).getD (j + 1) (fun _ => 0))
            ((mlsFn (bogusPath path lastState)).getD (j + 1) 0) /
          (bogusC2p c2p lastState).getD (j + 1) 0 *
          (if i = 0 then 1
           else (bogusC2p c2p lastState).getD (i - 1) 0 /
             ((bogusBpp bpp lastState).getD (i - 1) (fun _ => 0))
               ((mlsFn (bogusPath path lastState)).getD (i - 1) 0)) : ℚ)) := by
  unfold buildCNVs at hmem
  have hmem2 : cnv ∈ segLoop (bogusCes calledExons lastState)
      (mlsFn (bogusPath path lastState)) (bogusBpp bpp lastState)
      (bogusC2p c2p lastState) sid
      (List.range' 1 ((bogusCes calledExons lastState).length - 1))
      (mlsFn (bogusPath path lastState)).headI 0 := hmem
  rcases Nat.eq_zero_or_pos (bogusCes calledExons lastState).length with hlen | hlen
  · rw [hlen] at hmem2
    simp only [List.range'] at hmem2
    simp only [segLoop] at hmem2
    exact absurd hmem2 (List.not_mem_nil cnv)
  · have h := segLoop_runs (bogusCes calledExons lastState)
      (mlsFn (bogusPath path lastState)) (bogusBpp bpp lastState)
      (bogusC2p c2p lastState) sid ((bogusCes calledExons lastState).length - 1) 1
      (mlsFn (bogusPath path lastState)).headI 0 (by omega) (by omega)
      (fun j hj1 hj2 => by
        have : j = 0 := by omega
        rw [this, headI_eq_getD])
      (Or.inl rfl) cnv hmem2
    obtain ⟨i, j, h1, h2, h3, h4, h5, h6, h7, h8, h9, h10⟩ := h
    exact ⟨i, j, h1, h2, h3, h4, h5, h6, h7, h8, h9, by
      unfold CNV.qualityScore
      rw [h10]⟩

/-- Concrete buffers for the C3 witness (two called exons, most likely path
CN1 then CN2). -/
def c3ces : List ℤ := [5, 7]

/-- Path vectors for the C3 witness. -/
def c3path : List (Fin 4 → Fin 4) := [fun _ => 2, fun _ => 1]

/-- Best-path probabilities for the C3 witness. -/
def c3bpp : List (Fin 4 → ℚ) := [fun _ => 1, fun _ => 2]

/-- CN2-path probabilities for the C3 witness. -/
def c3c2p : List ℚ := [1, 1]

/-- The CNV emitted by `buildCNVs` on the C3 witness buffers. -/
def c3cnv : CNV := ⟨1, 5, 5, 2, "s"⟩

/-- C3 witness: the quality-score characterization applied to a concrete
emitted CNV. -/
theorem c3_quality_score_witness :
    ∃ i j, i ≤ j ∧ j + 1 < (bogusCes c3ces 2).length ∧
      (mlsFn (bogusPath c3path 2)).getD i 0 ≠ 2 ∧
      c3cnv.cnState = (mlsFn (bogusPath c3path 2)).getD i 0 ∧
      (∀ m, i ≤ m → m ≤ j →
        (mlsFn (bogusPath c3path 2)).getD m 0 = (mlsFn (bogusPath c3path 2)).getD i 0) ∧
      (mlsFn (bogusPath c3path 2)).getD (j + 1) 0 ≠ (mlsFn (bogusPath c3path 2)).getD i 0 ∧
      (i = 0 ∨ (mlsFn (bogusPath c3path 2)).getD (i - 1) 0 ≠
        (mlsFn (bogusPath c3path 2)).getD i 0) ∧
      c3cnv.firstExon = (bogusCes c3ces 2).getD i 0 ∧
      c3cnv.lastExon = (bogusCes c3ces 2).getD j 0 ∧
      c3cnv.qualityScore = Real.log
        ((((bogusBpp c3bpp 2).getD (j + 1) (fun _ => 0))
            ((mlsFn (bogusPath c3path 2)).getD (j + 1) 0) /
          (bogusC2p c3c2p 2).getD (j + 1) 0 *
          (if i = 0 then 1
           else (bogusC2p c3c2p 2).getD (i - 1) 0 /
             ((bogusBpp c3bpp 2).getD (i - 1) (fun _ => 0))
               ((mlsFn (bogusPath c3path 2)).getD (i - 1) 0)) : ℚ)) :=
  c3_quality_score c3ces c3path c3bpp c3c2p 2 "s" c3cnv (by
    norm_num +decide [buildCNVs, segLoop, mlsFn, bogusCes, bogusPath, bogusBpp, bogusC2p,
      c3ces, c3path, c3bpp, c3c2p, c3cnv, List.range', List.headI])

/-! ## Claim C2: invariants of emitted CNVs -/

lemma fin4_ne_two : ∀ c : Fin 4, c ≠ 2 → c = 0 ∨ c = 1 ∨ c = 3 := by decide

lemma getLastD_mem {α : Type} (l : List α) (d : α) (h : l ≠ []) : l.getLastD d ∈ l := by
  rw [List.getLastD_eq_getLast?, List.getLast?_eq_getLast l h]
  exact List.getLast_mem h

lemma getD_mem {α : Type} (l : List α) (d : α) (n : ℕ) (h : n < l.length) :
    l.getD n d ∈ l := by
  rw [List.getD_eq_getElem l d h]
  exact List.getElem_mem h

lemma mlsFn_length : ∀ l : List (Fin 4 → Fin 4), (mlsFn l).length = l.length
  | [] => rfl
  | [_] => rfl
  | _ :: p1 :: rest => by
    rw [mlsFn]
    simp only [List.length_cons]
    rw [mlsFn_length (p1 :: rest)]
    rfl

lemma mlsFn_getD_last : ∀ l : List (Fin 4 → Fin 4), l ≠ [] →
    (mlsFn l).getD (l.length - 1) 0 = 2
  | [], h => absurd rfl h
  | [_], _ => rfl
  | p0 :: p1 :: rest, _ => by
    rw [mlsFn]
    have hlen : (mlsFn (p1 :: rest)).length = rest.length + 1 := mlsFn_length (p1 :: rest)
    simp only [List.length_cons]
    have h1 : rest.length + 1 + 1 - 1 = (rest.length + 1 - 1) + 1 := by omega
    rw [h1]
    show (mlsFn (p1 :: rest)).getD (rest.length + 1 - 1) 0 = 2
    exact mlsFn_getD_last (p1 :: rest) (by simp)

lemma segLoop_good (ces : List ℤ) (mls : List (Fin 4)) (bpp : List (Fin 4 → ℚ))
    (c2p : List ℚ) (sid : String) (Q : ℤ → Prop)
    (hQ : ∀ i, i + 1 < ces.length → Q (ces.getD i 0))
    (hmono : ∀ i j, i ≤ j → j + 1 < ces.length → ces.getD i 0 ≤ ces.getD j 0)
    (hpos : ∀ i, i < ces.length →
      0 < (bpp.getD i (fun _ => 0)) (mls.getD i 0) ∧ 0 < c2p.getD i 0) :
    ∀ (k c0 : ℕ) (cur : Fin 4) (fi : ℕ), fi < c0 → c0 + k ≤ ces.length →
      ∀ cnv ∈ segLoop ces mls bpp c2p sid (List.range' c0 k) cur fi,
        cnv.cnState ≠ 2 ∧ Q cnv.firstExon ∧ Q cnv.lastExon ∧
        cnv.firstExon ≤ cnv.lastExon ∧ 0 < cnv.qualRatio := by
  intro k
  induction k with
  | zero =>
    intro c0 cur fi _ _ cnv hmem
    simp only [List.range'] at hmem
    simp only [segLoop] at hmem
    exact absurd hmem (List.not_mem_nil cnv)
  | succ k ih =>
    intro c0 cur fi hfi hlen cnv hmem
    rw [List.range'_succ] at hmem
    by_cases hsame : mls.getD c0 0 = cur
    · simp only [segLoop, if_pos hsame] at hmem
      exact ih (c0 + 1) cur fi (by omega) (by omega) cnv hmem
    · simp only [segLoop, if_neg hsame] at hmem
      by_cases hcur : cur ≠ 2
      · rw [if_pos hcur] at hmem
        rcases List.mem_cons.1 hmem with heq | hmemtail
        · obtain ⟨hb0, hc0⟩ := hpos c0 (by omega)
          refine ⟨?_, ?_, ?_, ?_, ?_⟩
          · rw [heq]; exact hcur
          · rw [heq]; exact hQ fi (by omega)
          · rw [heq]; exact hQ (c0 - 1) (by omega)
          · rw [heq]; exact hmono fi (c0 - 1) (by omega) (by omega)
          · rw [heq]
            simp only
            by_cases h0 : 0 < fi
            · rw [if_pos h0]
              obtain ⟨hbf, hcf⟩ := hpos (fi - 1) (by omega)
              exact mul_pos (div_pos (div_pos hb0 hc0) hbf) hcf
            · rw [if_neg h0]
              exact div_pos hb0 hc0
        · exact ih (c0 + 1) (mls.getD c0 0) c0 (by omega) (by omega) cnv hmemtail
      · rw [if_neg hcur] at hmem
        exact ih (c0 + 1) (mls.getD c0 0) c0 (by omega) (by omega) cnv hmem

lemma buildCNVs_good (ces : List ℤ) (path : List (Fin 4 → Fin 4))
    (bpp : List (Fin 4 → ℚ)) (c2p : List ℚ) (lastState : Fin 4) (sid : String)
    (Q : ℤ → Prop) (hQ : ∀ x ∈ ces, Q x) (hpair : ces.Pairwise (· ≤ ·))
    (hlenp : path.length = ces.length) (hlenb : bpp.length = ces.length)
    (hlenc : c2p.length = ces.length)
    (hbpp : ∀ v ∈ bpp, ∀ c, 0 < v c) (hc2p : ∀ x ∈ c2p, 0 < x) :
    ∀ cnv ∈ buildCNVs ces path bpp c2p lastState sid,
      cnv.cnState ≠ 2 ∧ Q cnv.firstExon ∧ Q cnv.lastExon ∧
      cnv.firstExon ≤ cnv.lastExon ∧ 0 < cnv.qualRatio := by
  intro cnv hmem
  unfold buildCNVs at hmem
  have hmem2 : cnv ∈ segLoop (bogusCes ces lastState)
      (mlsFn (bogusPath path lastState)) (bogusBpp bpp lastState)
      (bogusC2p c2p lastState) sid
      (List.range' 1 ((bogusCes ces lastState).length - 1))
      (mlsFn (bogusPath path lastState)).headI 0 := hmem
  rcases List.eq_nil_or_concat ces |>.symm.imp id id with hces | hces
  swap
  · subst hces
    have hlen0 : (bogusCes ([] : List ℤ) lastState).length ≤ 1 := by
      unfold bogusCes
      split_ifs <;> simp
    have : (bogusCes ([] : List ℤ) lastState).length - 1 = 0 := by omega
    rw [this] at hmem2
    simp only [List.range'] at hmem2
    simp only [segLoop] at hmem2
    exact absurd hmem2 (List.not_mem_nil cnv)
  · have hcesne : ces ≠ [] := by
      obtain ⟨l2, b, rfl⟩ := hces
      simp
    have hceslen : 0 < ces.length := List.length_pos.2 hcesne
    have hmono : ∀ i j, i ≤ j → j + 1 < (bogusCes ces lastState).length →
        (bogusCes ces lastState).getD i 0 ≤ (bogusCes ces lastState).getD j 0 := by
      intro i j hij hj
      have hjlen : j < ces.length := by
        unfold bogusCes at hj
        split_ifs at hj with h
        · simp only [List.length_append, List.length_singleton] at hj; omega
        · omega
      have hredi : (bogusCes ces lastState).getD i 0 = ces.getD i 0 := by
        unfold bogusCes
        split_ifs with h
        · exact List.getD_append _ _ _ _ (by omega)
        · rfl
      have hredj : (bogusCes ces lastState).getD j 0 = ces.getD j 0 := by
        unfold bogusCes
        split_ifs with h
        · exact List.getD_append _ _ _ _ hjlen
        · rfl
      rw [hredi, hredj]
      rcases Nat.eq_or_lt_of_le hij with rfl | hlt
      · exact le_refl _
      · rw [List.getD_eq_getElem _ _ (by omega : i < ces.length),
          List.getD_eq_getElem _ _ hjlen]
        exact List.pairwise_iff_get.1 hpair ⟨i, by omega⟩ ⟨j, hjlen⟩ hlt
    have hQ2 : ∀ i, i + 1 < (bogusCes ces lastState).length →
        Q ((bogusCes ces lastState).getD i 0) := by
      intro i hi
      have hilen : i < ces.length := by
        unfold bogusCes at hi
        split_ifs at hi with h
        · simp only [List.length_append, List.length_singleton] at hi; omega
        · omega
      have hred : (bogusCes ces lastState).getD i 0 = ces.getD i 0 := by
        unfold bogusCes
        split_ifs with h
        · exact List.getD_append _ _ _ _ hilen
        · rfl
      rw [hred]
      exact hQ _ (getD_mem ces 0 i hilen)
    have hpos : ∀ i, i < (bogusCes ces lastState).length →
        0 < ((bogusBpp bpp lastState).getD i (fun _ => 0))
          ((mlsFn (bogusPath path lastState)).getD i 0) ∧
        0 < (bogusC2p c2p lastState).getD i 0 := by
      intro i hi
      by_cases hls : lastState ≠ 2
      · unfold bogusCes at hi
        rw [if_pos hls] at hi
        simp only [List.length_append, List.length_singleton] at hi
        rcases Nat.lt_succ_iff_lt_or_eq.1 hi with hilt | hieq
        · constructor
          · have hred : (bogusBpp bpp lastState).getD i (fun _ => 0) =
                bpp.getD i (fun _ => 0) := by
              unfold bogusBpp
              rw [if_pos hls]
              exact List.getD_append _ _ _ _ (by omega)
            rw [hred]
            exact hbpp _ (getD_mem bpp (fun _ => 0) i (by omega)) _
          · have hred : (bogusC2p c2p lastState).getD i 0 = c2p.getD i 0 := by
              unfold bogusC2p
              rw [if_pos hls]
              exact List.getD_append _ _ _ _ (by omega)
            rw [hred]
            exact hc2p _ (getD_mem c2p 0 i (by omega))
        · subst hieq
          have hpathlen : (bogusPath path lastState).length = ces.length + 1 := by
            unfold bogusPath
            rw [if_pos hls]
            simp [hlenp]
          have hmlslast : (mlsFn (bogusPath path lastState)).getD ces.length 0 = 2 := by
            have := mlsFn_getD_last (bogusPath path lastState) (by
              unfold bogusPath
              rw [if_pos hls]
              simp)
            rw [hpathlen] at this
            simpa using this
          have hbppred : (bogusBpp bpp lastState).getD ces.length (fun _ => 0) =
              (fun s => if s = 2 then (bpp.getLastD (fun _ => 0)) lastState else 0) := by
            unfold bogusBpp
            rw [if_pos hls]
            rw [List.getD_eq_getElem _ _ (by simp [hlenb])]
            exact List.getElem_concat_length bpp _ ces.length (by omega) _
          have hc2pred : (bogusC2p c2p lastState).getD ces.length 0 = c2p.getLastD 0 := by
            unfold bogusC2p
            rw [if_pos hls]
            rw [List.getD_eq_getElem _ _ (by simp [hlenc])]
            exact List.getElem_concat_length c2p _ ces.length (by omega) _
          constructor
          · rw [hbppred, hmlslast]
            simp only [if_pos rfl]
            exact hbpp _ (getLastD_mem bpp (fun _ => 0)
              (by rw [← List.length_pos, hlenb]; omega)) lastState
          · rw [hc2pred]
            exact hc2p _ (getLastD_mem c2p 0 (by rw [← List.length_pos, hlenc]; omega))
      · rw [not_not] at hls
        subst hls
        have hil : i < ces.length := by
          unfold bogusCes at hi
          simp only [ne_eq, not_true_eq_false, if_neg, ite_false] at hi
          simpa using hi
        constructor
        · show 0 < ((bogusBpp bpp 2).getD i (fun _ => 0))
            ((mlsFn (bogusPath path 2)).getD i 0)
          have hred : (bogusBpp bpp 2).getD i (fun _ => 0) = bpp.getD i (fun _ => 0) := by
            unfold bogusBpp
            simp
          rw [hred]
          exact hbpp _ (getD_mem bpp (fun _ => 0) i (by omega)) _
        · have hred : (bogusC2p c2p 2).getD i 0 = c2p.getD i 0 := by
            unfold bogusC2p
            simp
          rw [hred]
          exact hc2p _ (getD_mem c2p 0 i (by omega))
    exact segLoop_good (bogusCes ces lastState) (mlsFn (bogusPath path lastState))
      (bogusBpp bpp lastState) (bogusC2p c2p lastState) sid Q hQ2 hmono hpos
      ((bogusCes ces lastState).length - 1) 1 (mlsFn (bogusPath path lastState)).headI 0
      (by omega)
      (by
        have : 0 < (bogusCes ces lastState).length := by
          unfold bogusCes
          split_ifs
          · simp
          · exact hceslen
        omega)
      cnv hmem2

/-- The per-exon no-call test used by the decoder: exon `e` is called when
`likelihoods[e, 0] != -1`. -/
def calledEx (L : ℕ → Fin 4 → ℚ) (e : ℕ) : Prop := L e 0 ≠ -1

/-- Chromosome of the exon at a given index. -/
def chromAt (exons : List Exon) (k : ℕ) : String := (exons.getD k default).chrom

/-- The C2 invariant for one emitted CNV: copy number in {0, 1, 3}, ordered
endpoints that are valid called exon indices on the same chromosome, and a
positive quality ratio (so the logged quality score is a finite real). -/
def GoodCNV (L : ℕ → Fin 4 → ℚ) (exons : List Exon) (cnv : CNV) : Prop :=
  (cnv.cnState = 0 ∨ cnv.cnState = 1 ∨ cnv.cnState = 3) ∧
  0 ≤ cnv.firstExon ∧ cnv.firstExon ≤ cnv.lastExon ∧
  cnv.lastExon < (exons.length : ℤ) ∧
  calledEx L cnv.firstExon.toNat ∧ calledEx L cnv.lastExon.toNat ∧
  chromAt exons cnv.firstExon.toNat = chromAt exons cnv.lastExon.toNat ∧
  0 < cnv.qualRatio

/-- The forward-pass invariant maintained by the decoder loop. -/
structure Inv (L : ℕ → Fin 4 → ℚ) (exons : List Exon) (idx : ℕ) (st : VState) : Prop where
  lenp : st.path.length = st.calledExons.length
  lenb : st.bpp.length = st.calledExons.length
  lenc : st.c2p.length = st.calledExons.length
  hQ : ∀ x ∈ st.calledExons, 0 ≤ x ∧ x < (idx : ℤ) ∧ x < (exons.length : ℤ) ∧
    calledEx L x.toNat ∧ chromAt exons x.toNat = st.prevChrom
  hpair : st.calledExons.Pairwise (· ≤ ·)
  hppNN : ∀ c, 0 ≤ st.probsPrev c
  hpp2 : 0 < st.probsPrev 2
  hbpp : ∀ v ∈ st.bpp, ∀ c, 0 < v c
  hc2p : ∀ x ∈ st.c2p, 0 < x
  hcnvs : ∀ cnv ∈ st.cnvs, GoodCNV L exons cnv

lemma Inv_mono (L : ℕ → Fin 4 → ℚ) (exons : List Exon) (idx idx2 : ℕ) (st : VState)
    (h : idx ≤ idx2) (hInv : Inv L exons idx st) : Inv L exons idx2 st where
  lenp := hInv.lenp
  lenb := hInv.lenb
  lenc := hInv.lenc
  hQ := fun x hx => ⟨(hInv.hQ x hx).1,
    lt_of_lt_of_le (hInv.hQ x hx).2.1 (by exact_mod_cast h),
    (hInv.hQ x hx).2.2.1, (hInv.hQ x hx).2.2.2.1, (hInv.hQ x hx).2.2.2.2⟩
  hpair := hInv.hpair
  hppNN := hInv.hppNN
  hpp2 := hInv.hpp2
  hbpp := hInv.hbpp
  hc2p := hInv.hc2p
  hcnvs := hInv.hcnvs

lemma stBuffers_good (L : ℕ → Fin 4 → ℚ) (exons : List Exon) (idx : ℕ) (st : VState)
    (hInv : Inv L exons idx st) (ls : Fin 4) (sid : String) :
    ∀ cnv ∈ buildCNVs st.calledExons st.path st.bpp st.c2p ls sid,
      GoodCNV L exons cnv := by
  intro cnv hmem
  have h := buildCNVs_good st.calledExons st.path st.bpp st.c2p ls sid
    (fun x => 0 ≤ x ∧ x < (exons.length : ℤ) ∧ calledEx L x.toNat ∧
      chromAt exons x.toNat = st.prevChrom)
    (fun x hx => ⟨(hInv.hQ x hx).1, (hInv.hQ x hx).2.2.1,
      (hInv.hQ x hx).2.2.2.1, (hInv.hQ x hx).2.2.2.2⟩)
    hInv.hpair hInv.lenp hInv.lenb hInv.lenc hInv.hbpp hInv.hc2p cnv hmem
  obtain ⟨hne2, ⟨hf0, hflen, hfcall, hfchr⟩, ⟨_, hllen, hlcall, hlchr⟩, hfl, hq⟩ := h
  exact ⟨fin4_ne_two _ hne2, hf0, hfl, hllen, hfcall, hlcall, hfchr.trans hlchr.symm, hq⟩

lemma chromFlush_good (L : ℕ → Fin 4 → ℚ) (exons : List Exon) (idx : ℕ) (st : VState)
    (hInv : Inv L exons idx st) (sid : String) :
    ∀ cnv ∈ chromFlush st sid, GoodCNV L exons cnv := by
  intro cnv hmem
  unfold chromFlush at hmem
  split_ifs at hmem with h
  · exact stBuffers_good L exons idx st hInv _ sid cnv hmem
  · exact absurd hmem (List.not_mem_nil cnv)

lemma rebaseFlush_good (L : ℕ → Fin 4 → ℚ) (exons : List Exon) (idx : ℕ) (st : VState)
    (hInv : Inv L exons idx st) (sid : String) :
    ∀ cnv ∈ rebaseFlush st sid, GoodCNV L exons cnv := by
  intro cnv hmem
  unfold rebaseFlush at hmem
  split_ifs at hmem with h
  · exact stBuffers_good L exons idx st hInv 2 sid cnv hmem
  · exact absurd hmem (List.not_mem_nil cnv)

lemma probsCurF_pos (pp : Fin 4 → ℚ) (T : Fin 4 → Fin 4 → ℚ) (L : Fin 4 → ℚ)
    (c : Fin 4) (hppNN : ∀ p, 0 ≤ pp p) (hpp2 : 0 < pp 2)
    (hT : ∀ p, 0 < T p c) (hL : 0 < L c) : 0 < probsCurF pp T L c :=
  lt_of_lt_of_le
    (show (0 : ℚ) < prob1 pp T L 2 c from mul_pos (mul_pos hpp2 (hT 2)) hL)
    (le_probsCurF pp T L c
      (fun p => prob1_nonneg pp T L p c (hppNN p) (hT p).le hL.le) 2)

lemma chromReset_inv (L : ℕ → Fin 4 → ℚ) (exons : List Exon) (idx : ℕ) (st : VState)
    (hInv : Inv L exons idx st) (ex : Exon) (dmax : ℤ) (sid : String) :
    Inv L exons idx (chromReset st ex dmax sid) ∧
      (chromReset st ex dmax sid).prevChrom = ex.chrom ∨
    Inv L exons idx (chromReset st ex dmax sid) ∧ chromReset st ex dmax sid = st := by
  unfold chromReset
  split_ifs with h
  · refine Or.inl ⟨?_, rfl⟩
    exact {
      lenp := rfl, lenb := rfl, lenc := rfl
      hQ := fun x hx => absurd hx (List.not_mem_nil x)
      hpair := List.Pairwise.nil
      hppNN := fun c => by
        show (0 : ℚ) ≤ if c = 2 then 1 else 0
        split_ifs <;> norm_num
      hpp2 := by
        show (0 : ℚ) < if (2 : Fin 4) = 2 then 1 else 0
        rw [if_pos rfl]
        norm_num
      hbpp := fun v hv => absurd hv (List.not_mem_nil v)
      hc2p := fun x hx => absurd hx (List.not_mem_nil x)
      hcnvs := fun cnv hmem => by
        rcases List.mem_append.1 hmem with hold | hflush
        · exact hInv.hcnvs cnv hold
        · exact chromFlush_good L exons idx st hInv sid cnv hflush }
  · exact Or.inr ⟨hInv, rfl⟩

lemma chromReset_prevChrom (st : VState) (ex : Exon) (dmax : ℤ) (sid : String) :
    (chromReset st ex dmax sid).prevChrom = ex.chrom := by
  unfold chromReset
  split_ifs with h
  · rfl
  · rw [not_not] at h
    exact h.symm

lemma rebaseReset_inv (L : ℕ → Fin 4 → ℚ) (exons : List Exon) (idx : ℕ) (st1 : VState)
    (hInv : Inv L exons idx st1) (bp : Fin 4 → Fin 4) (sid : String) :
    Inv L exons idx (rebaseReset st1 bp sid) ∧
    (rebaseReset st1 bp sid).prevChrom = st1.prevChrom ∧
    (rebaseReset st1 bp sid).probsPrev = st1.probsPrev := by
  unfold rebaseReset
  split_ifs with h1 h2
  · refine ⟨?_, rfl, rfl⟩
    exact {
      lenp := rfl, lenb := rfl, lenc := rfl
      hQ := fun x hx => absurd hx (List.not_mem_nil x)
      hpair := List.Pairwise.nil
      hppNN := hInv.hppNN
      hpp2 := hInv.hpp2
      hbpp := fun v hv => absurd hv (List.not_mem_nil v)
      hc2p := fun x hx => absurd hx (List.not_mem_nil x)
      hcnvs := fun cnv hmem => by
        rcases List.mem_append.1 hmem with hold | hflush
        · exact hInv.hcnvs cnv hold
        · exact rebaseFlush_good L exons idx st1 hInv sid cnv hflush }
  · refine ⟨?_, rfl, rfl⟩
    exact {
      lenp := hInv.lenp, lenb := hInv.lenb, lenc := hInv.lenc
      hQ := hInv.hQ, hpair := hInv.hpair
      hppNN := hInv.hppNN, hpp2 := hInv.hpp2
      hbpp := hInv.hbpp, hc2p := hInv.hc2p
      hcnvs := fun cnv hmem => by
        rcases List.mem_append.1 hmem with hold | hflush
        · exact hInv.hcnvs cnv hold
        · exact rebaseFlush_good L exons idx st1 hInv sid cnv hflush }
  · exact ⟨hInv, rfl, rfl⟩

lemma Inv_append (L : ℕ → Fin 4 → ℚ) (exons : List Exon) (i : ℕ)
    (hi : i < exons.length) (hcall : calledEx L i)
    (st2 : VState) (hInv2 : Inv L exons i st2)
    (hchrom2 : st2.prevChrom = chromAt exons i)
    (pp2 : Fin 4 → ℚ) (bp : Fin 4 → Fin 4) (cc : ℚ) (pend : ℤ) (pchrom : String)
    (hpchrom : pchrom = st2.prevChrom)
    (hpp2pos : ∀ c, 0 < pp2 c) (hccpos : 0 < cc) :
    Inv L exons (i + 1)
      { probsPrev := pp2, prevChrom := pchrom, prevEnd := pend,
        calledExons := st2.calledExons ++ [(i : ℤ)],
        path := st2.path ++ [bp], bpp := st2.bpp ++ [pp2],
        c2p := st2.c2p ++ [cc], cnvs := st2.cnvs } where
  lenp := by simp [List.length_append, hInv2.lenp]
  lenb := by simp [List.length_append, hInv2.lenb]
  lenc := by simp [List.length_append, hInv2.lenc]
  hQ := by
    intro x hx
    rcases List.mem_append.1 hx with hold | hnew
    · obtain ⟨h1, h2, h3, h4, h5⟩ := hInv2.hQ x hold
      exact ⟨h1, by push_cast; omega, h3, h4, by rw [h5, hpchrom]⟩
    · rw [List.mem_singleton.1 hnew]
      refine ⟨by positivity, by omega, by omega, ?_, ?_⟩
      · simpa using hcall
      · simp only [Int.toNat_natCast]
        rw [hpchrom, hchrom2]
  hpair := by
    rw [List.pairwise_append]
    refine ⟨hInv2.hpair, List.pairwise_singleton _ _, ?_⟩
    intro a ha b hb
    rw [List.mem_singleton.1 hb]
    exact le_of_lt (hInv2.hQ a ha).2.1
  hppNN := fun c => (hpp2pos c).le
  hpp2 := hpp2pos 2
  hbpp := by
    intro v hv
    rcases List.mem_append.1 hv with hold | hnew
    · exact hInv2.hbpp v hold
    · rw [List.mem_singleton.1 hnew]
      exact hpp2pos
  hc2p := by
    intro x hx
    rcases List.mem_append.1 hx with hold | hnew
    · exact hInv2.hc2p x hold
    · rw [List.mem_singleton.1 hnew]
      exact hccpos
  hcnvs := hInv2.hcnvs

lemma stepAppend_inv (doDiv : Bool) (adjT : ℤ → Fin 4 → Fin 4 → ℚ) (L : ℕ → Fin 4 → ℚ)
    (sid : String) (exons : List Exon)
    (hT : ∀ d p c, 0 < adjT d p c) (hL : ∀ e c, calledEx L e → 0 < L e c)
    (i : ℕ) (hi : i < exons.length) (hcall : calledEx L i) (ex : Exon)
    (hex : exons.getD i default = ex) (st1 : VState)
    (hInv : Inv L exons i st1) (hchrom : st1.prevChrom = ex.chrom) :
    Inv L exons (i + 1) (stepAppend doDiv adjT L sid ex i st1) := by
  have hLpos : ∀ c, 0 < L i c := fun c => hL i c hcall
  have hpcpos : ∀ c,
      0 < probsCurF st1.probsPrev (adjT (ex.start - st1.prevEnd - 1)) (L i) c :=
    fun c => probsCurF_pos st1.probsPrev _ (L i) c hInv.hppNN hInv.hpp2
      (fun p => hT _ p c) (hLpos c)
  obtain ⟨hInv2, hchrom2, _⟩ := rebaseReset_inv L exons i st1 hInv
    (fun c => bestPrevFin st1.probsPrev (adjT (ex.start - st1.prevEnd - 1)) (L i) c) sid
  have hpc2pos : ∀ c, 0 <
      (if (doDiv && allCN2 (fun c =>
          bestPrevFin st1.probsPrev (adjT (ex.start - st1.prevEnd - 1)) (L i) c) &&
          decide (st1.calledExons ≠ [])) = true then
        (fun c => probsCurF st1.probsPrev (adjT (ex.start - st1.prevEnd - 1)) (L i) c /
          st1.probsPrev 2)
      else fun c =>
        probsCurF st1.probsPrev (adjT (ex.start - st1.prevEnd - 1)) (L i) c) c := by
    intro c
    split_ifs with h
    · exact div_pos (hpcpos c) hInv.hpp2
    · exact hpcpos c
  have hc2pos : 0 < st1.probsPrev 2 * adjT (ex.start - st1.prevEnd - 1) 2 2 * L i 2 :=
    mul_pos (mul_pos hInv.hpp2 (hT _ 2 2)) (hLpos 2)
  have hc22pos : 0 <
      (if (doDiv && allCN2 (fun c =>
          bestPrevFin st1.probsPrev (adjT (ex.start - st1.prevEnd - 1)) (L i) c) &&
          decide (st1.calledExons ≠ [])) = true then
        st1.probsPrev 2 * adjT (ex.start - st1.prevEnd - 1) 2 2 * L i 2 /
          st1.c2p.getLastD 0
      else st1.probsPrev 2 * adjT (ex.start - st1.prevEnd - 1) 2 2 * L i 2) := by
    split_ifs with h
    · have hne : st1.calledExons ≠ [] := by
        simp only [Bool.and_eq_true, decide_eq_true_eq] at h
        exact h.2
      have hc2pne : st1.c2p ≠ [] := by
        rw [← List.length_pos, hInv.lenc, List.length_pos]
        exact List.length_pos.1 (List.length_pos.2 hne)
      exact div_pos hc2pos (hInv.hc2p _ (getLastD_mem st1.c2p 0 hc2pne))
    · exact hc2pos
  exact Inv_append L exons i hi hcall
    (rebaseReset st1
      (fun c => bestPrevFin st1.probsPrev (adjT (ex.start - st1.prevEnd - 1)) (L i) c) sid)
    hInv2
    (by rw [hchrom2, hchrom, ← hex]; rfl)
    _ _ _ ex.stop st1.prevChrom (by rw [hchrom2]) hpc2pos hc22pos

lemma Inv_to_length (L : ℕ → Fin 4 → ℚ) (exons : List Exon) (idx : ℕ) (st : VState)
    (hInv : Inv L exons idx st) : Inv L exons exons.length st where
  lenp := hInv.lenp
  lenb := hInv.lenb
  lenc := hInv.lenc
  hQ := fun x hx => ⟨(hInv.hQ x hx).1, (hInv.hQ x hx).2.2.1, (hInv.hQ x hx).2.2.1,
    (hInv.hQ x hx).2.2.2.1, (hInv.hQ x hx).2.2.2.2⟩
  hpair := hInv.hpair
  hppNN := hInv.hppNN
  hpp2 := hInv.hpp2
  hbpp := hInv.hbpp
  hc2p := hInv.hc2p
  hcnvs := hInv.hcnvs

lemma viterbiStep_inv (doDiv : Bool) (adjT : ℤ → Fin 4 → Fin 4 → ℚ) (L : ℕ → Fin 4 → ℚ)
    (sid : String) (dmax : ℤ) (exons : List Exon)
    (hT : ∀ d p c, 0 < adjT d p c) (hL : ∀ e c, calledEx L e → 0 < L e c)
    (i : ℕ) (hi : i < exons.length) (ex : Exon) (hex : exons.getD i default = ex)
    (st : VState) (hInv : Inv L exons i st) :
    Inv L exons (i + 1) (viterbiStep doDiv adjT L sid dmax ex i st) := by
  unfold viterbiStep
  split_ifs with hcall
  · exact Inv_mono L exons i (i + 1) st (by omega) hInv
  · have hInv1 : Inv L exons i (chromReset st ex dmax sid) := by
      rcases chromReset_inv L exons i st hInv ex dmax sid with ⟨h1, _⟩ | ⟨h1, _⟩ <;> exact h1
    exact stepAppend_inv doDiv adjT L sid exons hT hL i hi hcall ex hex
      (chromReset st ex dmax sid) hInv1 (chromReset_prevChrom st ex dmax sid)

lemma viterbiRun_inv (doDiv : Bool) (adjT : ℤ → Fin 4 → Fin 4 → ℚ) (L : ℕ → Fin 4 → ℚ)
    (sid : String) (dmax : ℤ) (exons : List Exon)
    (hT : ∀ d p c, 0 < adjT d p c) (hL : ∀ e c, calledEx L e → 0 < L e c) :
    ∀ (rest : List Exon) (i : ℕ) (st : VState),
      exons.drop i = rest → Inv L exons i st →
      Inv L exons exons.length (viterbiRun doDiv adjT L sid dmax rest i st) := by
  intro rest
  induction rest with
  | nil =>
    intro i st _ hInv
    exact Inv_to_length L exons i st hInv
  | cons ex rest ih =>
    intro i st hdrop hInv
    have hi : i < exons.length := by
      by_contra h
      push_neg at h
      rw [List.drop_eq_nil_of_le h] at hdrop
      exact absurd hdrop (by simp)
    have h1 := List.drop_eq_getElem_cons hi
    rw [hdrop] at h1
    injection h1 with h2 h3
    have hex : exons.getD i default = ex := by
      rw [List.getD_eq_getElem _ _ hi, ← h2]
    unfold viterbiRun
    exact ih (i + 1) _ h3.symm
      (viterbiStep_inv doDiv adjT L sid dmax exons hT hL i hi ex hex st hInv)

/-- C2: every CNV emitted by the decoder has copy-number state in {0, 1, 3},
ordered endpoints that are called (non-sentinel) exon indices on the same
chromosome, and a positive quality ratio, so the logged quality score is a
finite real.  The hypotheses say the adjusted transition probabilities are
positive and the likelihoods at called exons are positive: the regime in
which the source's float arithmetic is well defined (a zero entry would make
the source divide by zero or take log of a non-positive number). -/
theorem c2_cnv_invariants (L : ℕ → Fin 4 → ℚ) (adjT : ℤ → Fin 4 → Fin 4 → ℚ)
    (sid : String) (exons : List Exon) (dmax : ℤ)
    (hT : ∀ d p c, 0 < adjT d p c) (hL : ∀ e c, calledEx L e → 0 < L e c)
    (cnv : CNV) (hmem : cnv ∈ callCNVsOneSample L adjT sid exons dmax) :
    GoodCNV L exons cnv := by
  have hInv0 : Inv L exons 0
      { probsPrev := initProbs, prevChrom := exons.headI.chrom, prevEnd := -dmax,
        calledExons := [], path := [], bpp := [], c2p := [], cnvs := [] } := by
    exact {
      lenp := rfl, lenb := rfl, lenc := rfl
      hQ := fun x hx => absurd hx (List.not_mem_nil x)
      hpair := List.Pairwise.nil
      hppNN := fun c => by
        show (0 : ℚ) ≤ if c = 2 then 1 else 0
        split_ifs <;> norm_num
      hpp2 := by
        show (0 : ℚ) < if (2 : Fin 4) = 2 then 1 else 0
        rw [if_pos rfl]
        norm_num
      hbpp := fun v hv => absurd hv (List.not_mem_nil v)
      hc2p := fun x hx => absurd hx (List.not_mem_nil x)
      hcnvs := fun c hc => absurd hc (List.not_mem_nil c) }
  have hfin := viterbiRun_inv true adjT L sid dmax exons hT hL exons 0 _ (by simp) hInv0
  have hmem2 : cnv ∈ (viterbiRun true adjT L sid dmax exons 0
      { probsPrev := initProbs, prevChrom := exons.headI.chrom, prevEnd := -dmax,
        calledExons := [], path := [], bpp := [], c2p := [], cnvs := [] }).cnvs ++
      chromFlush (viterbiRun true adjT L sid dmax exons 0
      { probsPrev := initProbs, prevChrom := exons.headI.chrom, prevEnd := -dmax,
        calledExons := [], path := [], bpp := [], c2p := [], cnvs := [] }) sid := hmem
  rcases List.mem_append.1 hmem2 with h | h
  · exact hfin.hcnvs cnv h
  · exact chromFlush_good L exons exons.length _ hfin sid cnv h

/-- Likelihood row of exon 0 for the C2 witness: CN1 dominates. -/
def c2l0 : Fin 4 → ℚ := fun c => if c = 1 then 8 else if c = 2 then 1 else 1/10

/-- Likelihood row of exon 1 for the C2 witness: CN2 dominates. -/
def c2l1 : Fin 4 → ℚ := fun c => if c = 2 then 9 else 1/10

/-- Likelihoods for the C2 witness; exon 2 is a no-call. -/
def c2L : ℕ → Fin 4 → ℚ :=
  fun e c => if e = 0 then c2l0 c else if e = 1 then c2l1 c else -1

/-- Exon list for the C2 witness. -/
def c2exons : List Exon :=
  [⟨"chr1", 1, 100, "e0"⟩, ⟨"chr1", 200, 300, "e1"⟩, ⟨"chr1", 400, 500, "e2"⟩]

/-- Uniform positive adjusted transitions for the C2 witness. -/
def c2adjT : ℤ → Fin 4 → Fin 4 → ℚ := fun _ _ _ => 1/4

/-- The CNV emitted by the decoder on the C2 witness inputs. -/
def c2cnv : CNV := ⟨1, 0, 0, 8, "s"⟩

/-- C2 witness: a concrete decoder run emitting one CN1 CNV satisfying all
invariants. -/
theorem c2_cnv_invariants_witness : GoodCNV c2L c2exons c2cnv :=
  c2_cnv_invariants c2L c2adjT "s" c2exons 10000
    (fun d p c => by norm_num [c2adjT])
    (fun e c h => by
      unfold calledEx c2L at h
      unfold c2L
      split_ifs with h0 h1
      · rw [h0] at h
        unfold c2l0 at h ⊢
        split_ifs <;> norm_num
      · rw [h1] at h
        unfold c2l1 at h ⊢
        split_ifs <;> norm_num
      · rw [if_neg h0, if_neg h1] at h
        exact absurd rfl h)
    c2cnv (by
      norm_num +decide [callCNVsOneSample, callCNVsOneSampleGen, viterbiRun, viterbiStep,
        chromReset, stepAppend, rebaseReset, chromFlush, rebaseFlush, allCN2, buildCNVs,
        segLoop, mlsFn, bogusCes, bogusPath, bogusBpp, bogusC2p, probsCurF, bestPrevFin,
        innerMax, vFold, finRange4, vStep, prob1, argmaxFin, initProbs,
        c2L, c2l0, c2l1, c2adjT, c2exons, c2cnv, List.range', List.headI])

/-! ## Claim C4: the CN2-rebase renormalization changes only magnitudes -/

lemma segLoop_triples (ces : List ℤ) (mls : List (Fin 4)) (bpp bpp2 : List (Fin 4 → ℚ))
    (c2p c2p2 : List ℚ) (sid : String) :
    ∀ (idxs : List ℕ) (cur : Fin 4) (fi : ℕ),
      (segLoop ces mls bpp c2p sid idxs cur fi).map cnvTriple =
      (segLoop ces mls bpp2 c2p2 sid idxs cur fi).map cnvTriple := by
  intro idxs
  induction idxs with
  | nil => intro cur fi; rfl
  | cons cei rest ih =>
    intro cur fi
    simp only [segLoop]
    split_ifs with h1 h2 h3
    · exact ih cur fi
    · simp only [List.map_cons, ih (mls.getD cei 0) cei, cnvTriple]
    · simp only [List.map_cons, ih (mls.getD cei 0) cei, cnvTriple]
    · exact ih (mls.getD cei 0) cei

lemma buildCNVs_triples (ces : List ℤ) (path : List (Fin 4 → Fin 4))
    (bpp bpp2 : List (Fin 4 → ℚ)) (c2p c2p2 : List ℚ) (ls : Fin 4) (sid : String) :
    (buildCNVs ces path bpp c2p ls sid).map cnvTriple =
    (buildCNVs ces path bpp2 c2p2 ls sid).map cnvTriple := by
  unfold buildCNVs
  exact segLoop_triples _ _ _ _ _ _ _ _ _ _

lemma getLastD_map_scale_gen (l : List (Fin 4 → ℚ)) (s : ℚ) :
    ∀ d : Fin 4 → ℚ, (l.map (fun v => fun c => s * v c)).getLastD (fun c => s * d c) =
      fun c => s * (l.getLastD d) c := by
  induction l with
  | nil => intro d; rfl
  | cons a t ih =>
      intro d
      rw [List.map_cons, List.getLastD_cons, List.getLastD_cons]
      exact ih a

/-- Scaling the whole probability buffer by a constant scales the vector
returned by `getLastD` with the zero default. -/
lemma getLastD_map_scale (l : List (Fin 4 → ℚ)) (s : ℚ) :
    (l.map (fun v => fun c => s * v c)).getLastD (fun _ => 0) =
      fun c => s * (l.getLastD (fun _ => 0)) c := by
  have hfd : (fun c : Fin 4 => s * (fun _ : Fin 4 => (0 : ℚ)) c) =
      (fun _ : Fin 4 => (0 : ℚ)) := by
    funext c
    show s * 0 = 0
    ring
  have h := getLastD_map_scale_gen l s (fun _ => 0)
  rw [hfd] at h
  exact h

lemma chromFlush_triples (stD stN : VState) (sid : String) (s : ℚ) (hs : 0 < s)
    (hces : stN.calledExons = stD.calledExons) (hpath : stN.path = stD.path)
    (hbpp : stN.bpp = stD.bpp.map (fun v => fun c => s * v c)) :
    (chromFlush stN sid).map cnvTriple = (chromFlush stD sid).map cnvTriple := by
  unfold chromFlush
  rw [hpath, hces, hbpp]
  split_ifs with h
  · rw [getLastD_map_scale, argmaxFin_scale _ s hs]
    exact buildCNVs_triples _ _ _ _ _ _ _ _
  · rfl

lemma rebaseFlush_triples (stD stN : VState) (sid : String) (s : ℚ)
    (hces : stN.calledExons = stD.calledExons) (hpath : stN.path = stD.path)
    (hbpp : stN.bpp = stD.bpp.map (fun v => fun c => s * v c)) :
    (rebaseFlush stN sid).map cnvTriple = (rebaseFlush stD sid).map cnvTriple := by
  unfold rebaseFlush
  rw [hpath, hces, hbpp]
  split_ifs with h
  · exact buildCNVs_triples _ _ _ _ _ _ _ _
  · rfl

/-- Simulation relation between the source decoder state (`stD`, with
renormalization) and the no-renormalization state (`stN`): the segment-relevant
data agree, the numeric buffers differ by a positive scale factor, and the
renormalized state keeps non-negative probabilities with a positive CN2
entry. -/
def Rel (stD stN : VState) : Prop :=
  ∃ s : ℚ, 0 < s ∧
    stN.probsPrev = (fun c => s * stD.probsPrev c) ∧
    stN.prevChrom = stD.prevChrom ∧ stN.prevEnd = stD.prevEnd ∧
    stN.calledExons = stD.calledExons ∧ stN.path = stD.path ∧
    stN.bpp = stD.bpp.map (fun v => fun c => s * v c) ∧
    stN.cnvs.map cnvTriple = stD.cnvs.map cnvTriple ∧
    (∀ c, 0 ≤ stD.probsPrev c) ∧ 0 < stD.probsPrev 2

lemma chromReset_rel (stD stN : VState) (ex : Exon) (dmax : ℤ) (sid : String)
    (hrel : Rel stD stN) :
    Rel (chromReset stD ex dmax sid) (chromReset stN ex dmax sid) := by
  obtain ⟨s, hs, hpp, hchr, hpe, hces, hpath, hbpp, hcnv, hnn, hpp2⟩ := hrel
  unfold chromReset
  rw [hchr]
  split_ifs with h
  · refine ⟨1, by norm_num, ?_, rfl, rfl, rfl, rfl, by simp, ?_, ?_, ?_⟩
    · funext c
      show initProbs c = 1 * initProbs c
      ring
    · show (stN.cnvs ++ chromFlush stN sid).map cnvTriple =
        (stD.cnvs ++ chromFlush stD sid).map cnvTriple
      rw [List.map_append, List.map_append, hcnv,
        chromFlush_triples stD stN sid s hs hces hpath hbpp]
    · intro c
      show (0 : ℚ) ≤ if c = 2 then 1 else 0
      split_ifs <;> norm_num
    · show (0 : ℚ) < if (2 : Fin 4) = 2 then 1 else 0
      rw [if_pos rfl]
      norm_num
  · exact ⟨s, hs, hpp, hchr, hpe, hces, hpath, hbpp, hcnv, hnn, hpp2⟩

/-- `rebaseReset` leaves `probsPrev` untouched and keeps the two runs'
segment buffers related by the same scale factor. -/
lemma rebaseReset_facts (st1D st1N : VState) (bp : Fin 4 → Fin 4) (sid : String) (s : ℚ)
    (hces : st1N.calledExons = st1D.calledExons) (hpath : st1N.path = st1D.path)
    (hbpp : st1N.bpp = st1D.bpp.map (fun v => fun c => s * v c))
    (hcnv : st1N.cnvs.map cnvTriple = st1D.cnvs.map cnvTriple) :
    (rebaseReset st1N bp sid).probsPrev = st1N.probsPrev ∧
    (rebaseReset st1D bp sid).probsPrev = st1D.probsPrev ∧
    (rebaseReset st1N bp sid).calledExons = (rebaseReset st1D bp sid).calledExons ∧
    (rebaseReset st1N bp sid).path = (rebaseReset st1D bp sid).path ∧
    (rebaseReset st1N bp sid).bpp =
      (rebaseReset st1D bp sid).bpp.map (fun v => fun c => s * v c) ∧
    (rebaseReset st1N bp sid).cnvs.map cnvTriple =
      (rebaseReset st1D bp sid).cnvs.map cnvTriple := by
  unfold rebaseReset
  rw [hces]
  split_ifs with h1 h2
  · refine ⟨rfl, rfl, rfl, rfl, by simp, ?_⟩
    show (st1N.cnvs ++ rebaseFlush st1N sid).map cnvTriple =
      (st1D.cnvs ++ rebaseFlush st1D sid).map cnvTriple
    rw [List.map_append, List.map_append, hcnv,
      rebaseFlush_triples st1D st1N sid s hces hpath hbpp]
  · refine ⟨rfl, rfl, rfl, hpath, hbpp, ?_⟩
    show (st1N.cnvs ++ rebaseFlush st1N sid).map cnvTriple =
      (st1D.cnvs ++ rebaseFlush st1D sid).map cnvTriple
    rw [List.map_append, List.map_append, hcnv,
      rebaseFlush_triples st1D st1N sid s hces hpath hbpp]
  · exact ⟨rfl, rfl, hces, hpath, hbpp, hcnv⟩

/-- When all best predecessors are CN2 and some exon is pending, `rebaseReset`
clears the four per-segment buffers. -/
lemma rebaseReset_clear (st1 : VState) (bp : Fin 4 → Fin 4) (sid : String)
    (h1 : allCN2 bp = true) (h2 : st1.calledExons ≠ []) :
    (rebaseReset st1 bp sid).calledExons = [] ∧ (rebaseReset st1 bp sid).path = [] ∧
    (rebaseReset st1 bp sid).bpp = [] ∧ (rebaseReset st1 bp sid).c2p = [] := by
  unfold rebaseReset
  rw [if_pos h1, if_pos h2]
  exact ⟨rfl, rfl, rfl, rfl⟩

lemma viterbiStep_rel (adjT : ℤ → Fin 4 → Fin 4 → ℚ) (L : ℕ → Fin 4 → ℚ)
    (hT : ∀ d p c, 0 < adjT d p c) (hL : ∀ e c, calledEx L e → 0 < L e c)
    (sid : String) (dmax : ℤ) (ex : Exon) (i : ℕ) (stD stN : VState)
    (hrel : Rel stD stN) :
    Rel (viterbiStep true adjT L sid dmax ex i stD)
        (viterbiStep false adjT L sid dmax ex i stN) := by
  unfold viterbiStep
  by_cases hcall : L i 0 = -1
  · rw [if_pos hcall, if_pos hcall]
    exact hrel
  · rw [if_neg hcall, if_neg hcall]
    obtain ⟨s, hs, hpp, hchr, hpe, hces, hpath, hbpp, hcnv, hnn, hpp2⟩ :=
      chromReset_rel stD stN ex dmax sid hrel
    set st1D := chromReset stD ex dmax sid with hst1D
    set st1N := chromReset stN ex dmax sid with hst1N
    have hLpos : ∀ c, 0 < L i c := fun c => hL i c hcall
    have hprobnn : ∀ c p, 0 ≤ prob1 st1D.probsPrev (adjT (ex.start - st1D.prevEnd - 1))
        (L i) p c :=
      fun c p => prob1_nonneg _ _ _ p c (hnn p) (hT _ p c).le (hLpos c).le
    have hpcN : ∀ c, probsCurF st1N.probsPrev (adjT (ex.start - st1D.prevEnd - 1)) (L i) c =
        s * probsCurF st1D.probsPrev (adjT (ex.start - st1D.prevEnd - 1)) (L i) c := by
      intro c
      rw [hpp]
      exact probsCurF_scale st1D.probsPrev _ (L i) c s hs (hprobnn c)
    have hbpN : ∀ c, bestPrevFin st1N.probsPrev (adjT (ex.start - st1D.prevEnd - 1)) (L i) c =
        bestPrevFin st1D.probsPrev (adjT (ex.start - st1D.prevEnd - 1)) (L i) c := by
      intro c
      rw [hpp]
      exact bestPrevFin_scale st1D.probsPrev _ (L i) c s hs (hprobnn c)
    have hpcpos : ∀ c,
        0 < probsCurF st1D.probsPrev (adjT (ex.start - st1D.prevEnd - 1)) (L i) c :=
      fun c => probsCurF_pos st1D.probsPrev _ (L i) c hnn hpp2
        (fun p => hT _ p c) (hLpos c)
    have hfne : ¬(false = true) := fun h => Bool.noConfusion h
    obtain ⟨hq1, hq2, hrces, hrpath, hrbpp, hrcnv⟩ :=
      rebaseReset_facts st1D st1N
        (fun c => bestPrevFin st1D.probsPrev (adjT (ex.start - st1D.prevEnd - 1)) (L i) c)
        sid s hces hpath hbpp hcnv
    unfold Rel
    simp only [stepAppend]
    simp only [hpe, hces, hchr, hbpN, hpcN]
    simp only [hpp, Bool.true_and, Bool.false_and, if_neg hfne]
    by_cases hren : (allCN2 (fun c => bestPrevFin st1D.probsPrev
        (adjT (ex.start - st1D.prevEnd - 1)) (L i) c) &&
        decide (st1D.calledExons ≠ [])) = true
    · -- the source run renormalizes and clears the buffers; the scale becomes
      -- `s * probsPrev[2]`
      have hAB := hren
      rw [Bool.and_eq_true] at hAB
      have hA : allCN2 (fun c => bestPrevFin st1D.probsPrev
          (adjT (ex.start - st1D.prevEnd - 1)) (L i) c) = true := hAB.1
      have hB : st1D.calledExons ≠ [] := of_decide_eq_true hAB.2
      have hBN : st1N.calledExons ≠ [] := by rw [hces]; exact hB
      have hclearD := rebaseReset_clear st1D
        (fun c => bestPrevFin st1D.probsPrev (adjT (ex.start - st1D.prevEnd - 1)) (L i) c)
        sid hA hB
      have hclearN := rebaseReset_clear st1N
        (fun c => bestPrevFin st1D.probsPrev (adjT (ex.start - st1D.prevEnd - 1)) (L i) c)
        sid hA hBN
      have hne : st1D.probsPrev 2 ≠ 0 := ne_of_gt hpp2
      have hfun : (fun c => s * probsCurF st1D.probsPrev
          (adjT (ex.start - st1D.prevEnd - 1)) (L i) c) =
          fun c => s * st1D.probsPrev 2 *
            (probsCurF st1D.probsPrev (adjT (ex.start - st1D.prevEnd - 1)) (L i) c /
              st1D.probsPrev 2) := by
        funext c
        rw [← mul_div_assoc, eq_div_iff hne]
        ring
      simp only [if_pos hren]
      refine ⟨s * st1D.probsPrev 2, mul_pos hs hpp2, ?_, ?_, ?_, ?_, ?_, ?_, ?_, ?_, ?_⟩
      · exact hfun
      · trivial
      · trivial
      · rw [hrces]
      · rw [hrpath]
      · rw [hclearN.2.2.1, hclearD.2.2.1]
        simp only [List.nil_append, List.map_cons, List.map_nil]
        rw [hfun]
      · exact hrcnv
      · intro c
        exact (div_pos (hpcpos c) hpp2).le
      · exact div_pos (hpcpos 2) hpp2
    · -- no renormalization in either run: the scale is unchanged
      simp only [if_neg hren]
      refine ⟨s, hs, ?_, ?_, ?_, ?_, ?_, ?_, ?_, ?_, ?_⟩
      · rfl
      · trivial
      · trivial
      · rw [hrces]
      · rw [hrpath]
      · rw [List.map_append, hrbpp]
        simp only [List.map_cons, List.map_nil]
      · exact hrcnv
      · intro c
        exact (hpcpos c).le
      · exact hpcpos 2

lemma viterbiRun_rel (adjT : ℤ → Fin 4 → Fin 4 → ℚ) (L : ℕ → Fin 4 → ℚ)
    (hT : ∀ d p c, 0 < adjT d p c) (hL : ∀ e c, calledEx L e → 0 < L e c)
    (sid : String) (dmax : ℤ) :
    ∀ (exs : List Exon) (i : ℕ) (stD stN : VState), Rel stD stN →
      Rel (viterbiRun true adjT L sid dmax exs i stD)
          (viterbiRun false adjT L sid dmax exs i stN) := by
  intro exs
  induction exs with
  | nil =>
      intro i stD stN h
      exact h
  | cons ex rest ih =>
      intro i stD stN h
      exact ih (i + 1) _ _ (viterbiStep_rel adjT L hT hL sid dmax ex i stD stN h)

/-- C4: with positive adjusted transitions and positive likelihoods at called
exons, the decoder with the CN2-rebase renormalization divisions disabled
emits exactly the same CNV segments (cnState, firstExon, lastExon) as the
source decoder, and rescaling the carried probabilities by any positive
factor never changes the recorded best-predecessor (argmax) state: the rebase
only changes the numeric magnitudes of the stored probabilities. -/
theorem c4_rebase_stability (L : ℕ → Fin 4 → ℚ) (adjT : ℤ → Fin 4 → Fin 4 → ℚ)
    (sampleID : String) (exons : List Exon) (dmax : ℤ)
    (hT : ∀ d p c, 0 < adjT d p c) (hL : ∀ e c, calledEx L e → 0 < L e c) :
    ((callCNVsOneSampleNoRebase L adjT sampleID exons dmax).map cnvTriple =
      (callCNVsOneSample L adjT sampleID exons dmax).map cnvTriple) ∧
    (∀ (pp : Fin 4 → ℚ) (T : Fin 4 → Fin 4 → ℚ) (Lr : Fin 4 → ℚ) (c : Fin 4) (sc : ℚ),
      0 < sc → (∀ p, 0 ≤ prob1 pp T Lr p c) →
      bestPrevFin (fun r => sc * pp r) T Lr c = bestPrevFin pp T Lr c) := by
  constructor
  · have hrel0 : Rel
        { probsPrev := initProbs, prevChrom := exons.headI.chrom, prevEnd := -dmax,
          calledExons := [], path := [], bpp := [], c2p := [], cnvs := [] }
        { probsPrev := initProbs, prevChrom := exons.headI.chrom, prevEnd := -dmax,
          calledExons := [], path := [], bpp := [], c2p := [], cnvs := [] } := by
      refine ⟨1, one_pos, ?_, rfl, rfl, rfl, rfl, by simp, rfl, ?_, ?_⟩
      · funext c
        show initProbs c = 1 * initProbs c
        ring
      · intro c
        show (0 : ℚ) ≤ if c = 2 then 1 else 0
        split_ifs <;> norm_num
      · show (0 : ℚ) < if (2 : Fin 4) = 2 then 1 else 0
        rw [if_pos rfl]
        norm_num
    obtain ⟨s, hs, hpp, hchr, hpe, hces, hpath, hbpp, hcnv, hnn, hpp2⟩ :=
      viterbiRun_rel adjT L hT hL sampleID dmax exons 0 _ _ hrel0
    simp only [callCNVsOneSampleNoRebase, callCNVsOneSample, callCNVsOneSampleGen]
    rw [List.map_append, List.map_append, hcnv,
      chromFlush_triples _ _ sampleID s hs hces hpath hbpp]
  · intro pp T Lr c sc hsc hq
    exact bestPrevFin_scale pp T Lr c sc hsc hq

/-- Likelihood row where CN2 dominates, for the C4 witness. -/
def c4l0 : Fin 4 → ℚ := fun c => if c = 2 then 5 else if c = 1 then 2/10 else 1/10

/-- Likelihood row where CN1 dominates, for the C4 witness. -/
def c4l1 : Fin 4 → ℚ := fun c => if c = 1 then 9 else if c = 2 then 1 else 1/10

/-- Likelihood row where CN2 strongly dominates, for the C4 witness. -/
def c4l2 : Fin 4 → ℚ := fun c => if c = 2 then 9 else 1/10

/-- Likelihoods for the C4 witness: a CN2-dominant exon (so the rebase block
fires at the next exon with a pending buffer), a CN1 exon opening a segment,
and a CN2 exon closing it. -/
def c4L : ℕ → Fin 4 → ℚ := fun e c =>
  if e = 0 then c4l0 c else if e = 1 then c4l1 c else if e = 2 then c4l2 c else -1

/-- Exon list for the C4 witness. -/
def c4exons : List Exon :=
  [⟨"chr1", 1, 100, "e0"⟩, ⟨"chr1", 200, 300, "e1"⟩, ⟨"chr1", 400, 500, "e2"⟩]

/-- Uniform positive adjusted transitions for the C4 witness. -/
def c4adjT : ℤ → Fin 4 → Fin 4 → ℚ := fun _ _ _ => 1/4

/-- C4 witness: on a concrete run where the CN2-rebase renormalization fires,
both decoder variants emit the single CN1 segment on exon 1. -/
theorem c4_rebase_stability_witness :
    ((callCNVsOneSampleNoRebase c4L c4adjT "s4" c4exons 10000).map cnvTriple =
      (callCNVsOneSample c4L c4adjT "s4" c4exons 10000).map cnvTriple) ∧
    (callCNVsOneSample c4L c4adjT "s4" c4exons 10000).map cnvTriple =
      [((1 : Fin 4), (1 : ℤ), (1 : ℤ))] :=
  ⟨(c4_rebase_stability c4L c4adjT "s4" c4exons 10000
      (fun d p c => by norm_num [c4adjT])
      (fun e c h => by
        unfold calledEx c4L at h
        unfold c4L
        split_ifs with h0 h1 h2
        · unfold c4l0
          split_ifs <;> norm_num
        · unfold c4l1
          split_ifs <;> norm_num
        · unfold c4l2
          split_ifs <;> norm_num
        · rw [if_neg h0, if_neg h1, if_neg h2] at h
          exact absurd rfl h)).1,
   by
    norm_num +decide [callCNVsOneSample, callCNVsOneSampleGen, viterbiRun, viterbiStep,
      chromReset, stepAppend, rebaseReset, chromFlush, rebaseFlush, allCN2, buildCNVs,
      segLoop, mlsFn, bogusCes, bogusPath, bogusBpp, bogusC2p, probsCurF, bestPrevFin,
      innerMax, vFold, finRange4, vStep, prob1, argmaxFin, initProbs, cnvTriple,
      c4L, c4l0, c4l1, c4l2, c4adjT, c4exons, List.range', List.headI]⟩

/-! ## Claim C9 witness -/

/-- C9 witness: a concrete vector with median 0. -/
theorem c9_zero_median_fails_witness :
    robustGaussianFit 3 (fun q => q) 1 [0, 1, 0] none none 2 (1/100000) =
      Except.error "cannot fit" :=
  c9_zero_median_fails 3 (fun q => q) 1 [0, 1, 0] 2 (1/100000)
    (by norm_num [npMedian, List.insertionSort, List.orderedInsert])

end JACNEx
